import Mathlib

/-!
Verification development for the BSON value model, its extended-JSON codec
(`src/bson.rs`) and the streaming binary decoder (`src/de/raw.rs`).

The embedding is shallow: Rust machine integers are modelled as `Nat`/`Int`
with explicit two's-complement wrapping where the code relies on it, fallible
Rust paths return `Except`, and a Rust `panic!`/`todo!`/`unwrap` is modelled
as the distinguished outcome `DErr.fatal` (for decoders) or
`EncResult.panicked` (for the encoders), so that "returns an error" and
"aborts the process" stay observably different.

External collaborators that the crate links against but whose sources are not
part of the two files under verification (the ordered `Document` container,
the `ObjectId` hex codec, the `base64`/`hex` crates, the byte readers of
`de/mod.rs`, the type-tag registry of `spec.rs`) are modelled from the spec:
each such definition carries a comment saying so.
-/

/-! ## Decimal digit strings (Rust `to_string` / `str::parse` on integers) -/

/-- One decimal digit `0..9` rendered as a character. -/
def digitCh (n : Nat) : Char := Char.ofNat (48 + n)

/-- Value of a decimal digit character, `none` on anything else. -/
def digitVal (c : Char) : Option Nat :=
  if '0' ≤ c ∧ c ≤ '9' then some (c.toNat - 48) else none

/-- True on `'0'..'9'`. -/
def isDigitCh (c : Char) : Bool := decide ('0' ≤ c ∧ c ≤ '9')

theorem digitVal_digitCh {d : Nat} (h : d < 10) : digitVal (digitCh d) = some d := by
  interval_cases d <;> decide

theorem isDigitCh_digitCh {d : Nat} (h : d < 10) : isDigitCh (digitCh d) = true := by
  interval_cases d <;> decide

/-- Big-endian decimal digits of `n` (empty for `0`); fuel-based so that it
reduces definitionally. Models the digit loop inside Rust's integer
`Display`. -/
def natDecAux : Nat → Nat → List Char
  | 0, _ => []
  | fuel + 1, n => if n = 0 then [] else natDecAux fuel (n / 10) ++ [digitCh (n % 10)]

/-- Decimal rendering of a natural number, as Rust's `to_string` produces it. -/
def natDecChars (n : Nat) : List Char :=
  if n = 0 then ['0'] else natDecAux (n + 1) n

/-- Decimal rendering of an `Int`, as Rust's `to_string` on `i32`/`i64`. -/
def intDecChars (v : Int) : List Char :=
  if v < 0 then '-' :: natDecChars v.natAbs else natDecChars v.toNat

/-- Left-fold accumulator of a decimal digit string. -/
def parseNatAcc (acc : Nat) : List Char → Option Nat
  | [] => some acc
  | c :: rest =>
    match digitVal c with
    | some d => parseNatAcc (acc * 10 + d) rest
    | none => none

/-- Parse a non-empty all-digit string as a natural number.  Models the core
of Rust's `str::parse` for unsigned values (the model does not accept the
optional `+` sign, which no code path under verification emits). -/
def parseNatChars : List Char → Option Nat
  | [] => none
  | c :: rest => parseNatAcc 0 (c :: rest)

/-- Parse an optionally `-`-signed decimal string. -/
def parseIntChars (cs : List Char) : Option Int :=
  if cs.head? = some '-' then (parseNatChars cs.tail).map (fun n => -(Int.ofNat n))
  else (parseNatChars cs).map (fun n => Int.ofNat n)

/-- Weight that the digits of `n` shift an accumulator by: `10 ^ (number of
digits of n)` computed with the same fuel pattern as `natDecAux`. -/
def decMul : Nat → Nat → Nat
  | 0, _ => 1
  | fuel + 1, n => if n = 0 then 1 else 10 * decMul fuel (n / 10)

theorem parseNatAcc_append_digit (acc : Nat) (cs : List Char) (c : Char) :
    parseNatAcc acc (cs ++ [c]) =
      match parseNatAcc acc cs with
      | some v => (digitVal c).map (fun d => v * 10 + d)
      | none => none := by
  induction cs generalizing acc with
  | nil => cases hdv : digitVal c <;> simp [parseNatAcc, hdv]
  | cons c0 rest ih =>
    simp only [List.cons_append, parseNatAcc]
    cases hdv : digitVal c0 with
    | none => rfl
    | some d => exact ih (acc * 10 + d)

theorem parseNatAcc_natDecAux (fuel n acc : Nat) (h : n ≤ fuel) :
    parseNatAcc acc (natDecAux fuel n) = some (acc * decMul fuel n + n) := by
  induction fuel generalizing n acc with
  | zero =>
    interval_cases n
    simp [natDecAux, parseNatAcc, decMul]
  | succ fuel ih =>
    by_cases hn : n = 0
    · simp [natDecAux, parseNatAcc, decMul, hn]
    · have hdiv : n / 10 ≤ fuel := by omega
      rw [natDecAux, if_neg hn, parseNatAcc_append_digit, ih _ _ hdiv,
        digitVal_digitCh (Nat.mod_lt n (by norm_num))]
      simp only [Option.map_some', decMul, if_neg hn, Option.some.injEq]
      have hdm : 10 * (n / 10) + n % 10 = n := Nat.div_add_mod n 10
      calc (acc * decMul fuel (n / 10) + n / 10) * 10 + n % 10
          = acc * (10 * decMul fuel (n / 10)) + (10 * (n / 10) + n % 10) := by ring
        _ = acc * (10 * decMul fuel (n / 10)) + n := by rw [hdm]

theorem parseNatChars_natDecChars (n : Nat) :
    parseNatChars (natDecChars n) = some n := by
  by_cases hn : n = 0
  · simp [natDecChars, hn, parseNatChars, parseNatAcc, digitVal]
  · rw [natDecChars, if_neg hn]
    have h1 : n ≤ n + 1 := Nat.le_succ n
    have hacc := parseNatAcc_natDecAux (n + 1) n 0 h1
    have hne : natDecAux (n + 1) n ≠ [] := by
      rw [natDecAux, if_neg hn]
      simp
    rcases hcs : natDecAux (n + 1) n with _ | ⟨c, rest⟩
    · exact absurd hcs hne
    · rw [hcs] at hacc
      show parseNatAcc 0 (c :: rest) = some n
      rw [hacc, Nat.zero_mul, Nat.zero_add]

theorem natDecAux_all_digits (fuel n : Nat) :
    ∀ c ∈ natDecAux fuel n, isDigitCh c = true := by
  induction fuel generalizing n with
  | zero => simp [natDecAux]
  | succ fuel ih =>
    intro c hc
    rw [natDecAux] at hc
    split at hc
    · simp at hc
    · rw [List.mem_append] at hc
      rcases hc with hc | hc
      · exact ih _ c hc
      · simp only [List.mem_singleton] at hc
        subst hc
        exact isDigitCh_digitCh (Nat.mod_lt n (by norm_num))

theorem natDecChars_all_digits (n : Nat) :
    ∀ c ∈ natDecChars n, isDigitCh c = true := by
  intro c hc
  rw [natDecChars] at hc
  split at hc
  · simp at hc; subst hc; decide
  · exact natDecAux_all_digits _ _ c hc

theorem natDecChars_ne_nil (n : Nat) : natDecChars n ≠ [] := by
  rw [natDecChars]
  split
  · simp
  · rw [natDecAux, if_neg (by assumption)]
    simp

theorem parseIntChars_intDecChars (v : Int) :
    parseIntChars (intDecChars v) = some v := by
  rw [intDecChars]
  split
  · rw [parseIntChars]
    simp only [List.head?_cons, List.tail_cons, Option.some.injEq, ite_true, reduceIte,
      if_pos, parseNatChars_natDecChars, Option.map_some']
    congr 1
    simp only [Int.ofNat_eq_coe]
    omega
  · have hhead := natDecChars_ne_nil v.toNat
    rcases hcs : natDecChars v.toNat with _ | ⟨c, rest⟩
    · exact absurd hcs hhead
    · have hdig : isDigitCh c = true := by
        apply natDecChars_all_digits
        rw [hcs]; exact List.mem_cons_self _ _
      have hcne : ¬ ((c :: rest).head? = some '-') := by
        simp only [List.head?_cons, Option.some.injEq]
        intro he; subst he; simp [isDigitCh] at hdig
      have hp : parseNatChars (natDecChars v.toNat) = some v.toNat :=
        parseNatChars_natDecChars _
      rw [hcs] at hp
      rw [parseIntChars, if_neg hcne, hp]
      simp only [Option.map_some']
      congr 1
      simp only [Int.ofNat_eq_coe]
      omega

/-! ## Hex strings (the external `hex` crate, modelled from the spec) -/

/-- Lowercase hex digit, as `hex::encode` emits. -/
def hexDigitCh (n : Nat) : Char :=
  if n < 10 then Char.ofNat (48 + n) else Char.ofNat (87 + n)

/-- Value of a hex digit character (`hex::decode` accepts both cases). -/
def hexCharVal (c : Char) : Option Nat :=
  if '0' ≤ c ∧ c ≤ '9' then some (c.toNat - 48)
  else if 'a' ≤ c ∧ c ≤ 'f' then some (c.toNat - 87)
  else if 'A' ≤ c ∧ c ≤ 'F' then some (c.toNat - 55)
  else none

theorem hexCharVal_hexDigitCh {d : Nat} (h : d < 16) :
    hexCharVal (hexDigitCh d) = some d := by
  interval_cases d <;> decide

/-- Modelled from the spec: `hex::encode`, two lowercase digits per byte. -/
def hexEncode : List Nat → List Char
  | [] => []
  | b :: rest => hexDigitCh (b / 16) :: hexDigitCh (b % 16) :: hexEncode rest

/-- Modelled from the spec: `hex::decode`; fails on odd length or non-hex
characters. -/
def hexDecode : List Char → Option (List Nat)
  | [] => some []
  | c1 :: c2 :: rest =>
    match hexCharVal c1, hexCharVal c2, hexDecode rest with
    | some h1, some h2, some tl => some ((h1 * 16 + h2) :: tl)
    | _, _, _ => none
  | _ => none

theorem hexDecode_hexEncode (bytes : List Nat) (h : ∀ b ∈ bytes, b < 256) :
    hexDecode (hexEncode bytes) = some bytes := by
  induction bytes with
  | nil => rfl
  | cons b rest ih =>
    have hb : b < 256 := h b (List.mem_cons_self _ _)
    have h1 : b / 16 < 16 := by omega
    have h2 : b % 16 < 16 := by omega
    rw [hexEncode, hexDecode, hexCharVal_hexDigitCh h1, hexCharVal_hexDigitCh h2,
      ih (fun x hx => h x (List.mem_cons_of_mem _ hx))]
    show some ((b / 16 * 16 + b % 16) :: rest) = some (b :: rest)
    have hbb : b / 16 * 16 + b % 16 = b := by omega
    rw [hbb]

/-! ## Base64 (the external `base64` crate, modelled from the spec) -/

/-- Standard-alphabet base64 symbol for a 6-bit value. -/
def sextetCh (n : Nat) : Char :=
  if n < 26 then Char.ofNat (65 + n)
  else if n < 52 then Char.ofNat (97 + (n - 26))
  else if n < 62 then Char.ofNat (48 + (n - 52))
  else if n = 62 then '+'
  else '/'

/-- Value of a base64 symbol, `none` for anything else (including `=`). -/
def sextetVal (c : Char) : Option Nat :=
  if 'A' ≤ c ∧ c ≤ 'Z' then some (c.toNat - 65)
  else if 'a' ≤ c ∧ c ≤ 'z' then some (c.toNat - 97 + 26)
  else if '0' ≤ c ∧ c ≤ '9' then some (c.toNat - 48 + 52)
  else if c = '+' then some 62
  else if c = '/' then some 63
  else none

theorem sextetVal_sextetCh {s : Nat} (h : s < 64) : sextetVal (sextetCh s) = some s := by
  interval_cases s <;> decide

theorem sextetCh_ne_eq {s : Nat} (h : s < 64) : sextetCh s ≠ '=' := by
  interval_cases s <;> decide

/-- Modelled from the spec: `base64::encode` over the standard alphabet with
`=` padding. -/
def b64Encode : List Nat → List Char
  | [] => []
  | [b1] => [sextetCh (b1 / 4), sextetCh (b1 % 4 * 16), '=', '=']
  | [b1, b2] =>
    [sextetCh (b1 / 4), sextetCh (b1 % 4 * 16 + b2 / 16), sextetCh (b2 % 16 * 4), '=']
  | b1 :: b2 :: b3 :: rest =>
    sextetCh (b1 / 4) :: sextetCh (b1 % 4 * 16 + b2 / 16) ::
      sextetCh (b2 % 16 * 4 + b3 / 64) :: sextetCh (b3 % 64) :: b64Encode rest

/-- Modelled from the spec: `base64::decode`; processes four-symbol blocks,
padding allowed only in the final block. -/
def b64Decode : List Char → Option (List Nat)
  | [] => some []
  | c1 :: c2 :: c3 :: c4 :: rest =>
    match sextetVal c1, sextetVal c2 with
    | some s1, some s2 =>
      if c3 = '=' then
        if c4 = '=' ∧ rest = [] then some [s1 * 4 + s2 / 16] else none
      else
        match sextetVal c3 with
        | some s3 =>
          if c4 = '=' then
            if rest = [] then some [s1 * 4 + s2 / 16, s2 % 16 * 16 + s3 / 4] else none
          else
            match sextetVal c4, b64Decode rest with
            | some s4, some tl =>
              some ((s1 * 4 + s2 / 16) :: (s2 % 16 * 16 + s3 / 4) :: (s3 % 4 * 64 + s4) :: tl)
            | _, _ => none
        | none => none
    | _, _ => none
  | _ => none

theorem b64Decode_b64Encode (bytes : List Nat) (h : ∀ b ∈ bytes, b < 256) :
    b64Decode (b64Encode bytes) = some bytes := by
  induction bytes using b64Encode.induct with
  | case1 => rfl
  | case2 b1 =>
    have hb1 : b1 < 256 := h b1 (by simp)
    rw [b64Encode, b64Decode, sextetVal_sextetCh (show b1 / 4 < 64 by omega),
      sextetVal_sextetCh (show b1 % 4 * 16 < 64 by omega)]
    simp only [Option.some.injEq, List.cons.injEq, and_true, if_pos, and_self, ite_true,
      reduceIte]
    omega
  | case3 b1 b2 =>
    have hb1 : b1 < 256 := h b1 (by simp)
    have hb2 : b2 < 256 := h b2 (by simp)
    rw [b64Encode, b64Decode, sextetVal_sextetCh (show b1 / 4 < 64 by omega),
      sextetVal_sextetCh (show b1 % 4 * 16 + b2 / 16 < 64 by omega)]
    simp only [sextetCh_ne_eq (show b2 % 16 * 4 < 64 by omega), ite_false, reduceIte,
      sextetVal_sextetCh (show b2 % 16 * 4 < 64 by omega), Option.some.injEq,
      List.cons.injEq, and_true]
    omega
  | case4 b1 b2 b3 rest ih =>
    have hb1 : b1 < 256 := h b1 (by simp)
    have hb2 : b2 < 256 := h b2 (by simp)
    have hb3 : b3 < 256 := h b3 (by simp)
    have hrest : ∀ b ∈ rest, b < 256 := by
      intro b hb
      exact h b (by simp [hb])
    rw [b64Encode, b64Decode, sextetVal_sextetCh (show b1 / 4 < 64 by omega),
      sextetVal_sextetCh (show b1 % 4 * 16 + b2 / 16 < 64 by omega)]
    simp only [sextetCh_ne_eq (show b2 % 16 * 4 + b3 / 64 < 64 by omega),
      sextetCh_ne_eq (show b3 % 64 < 64 by omega), ite_false, reduceIte,
      sextetVal_sextetCh (show b2 % 16 * 4 + b3 / 64 < 64 by omega),
      sextetVal_sextetCh (show b3 % 64 < 64 by omega), ih hrest,
      Option.some.injEq, List.cons.injEq, and_true]
    omega

/-! ## A model of `f64` as seen through its decimal rendering

Rust's `f64` is external to the two files under verification; the extended
JSON codec only observes it through `is_nan`, `is_infinite`, `is_normal`,
`is_sign_negative`, `fract() == 0.0`, `== 0.0`, `to_string` and
`str::parse`.  The model below represents a float by its exact shortest
decimal rendering (sign, integer part, fraction digits); Rust guarantees
that `to_string`/`parse` round-trip exactly through that rendering.
Subnormal values are not distinguished from normal ones in the model. -/

inductive F64 where
  | nan (neg : Bool)
  | inf (neg : Bool)
  | finite (neg : Bool) (ip : Nat) (frac : List Nat)
  deriving DecidableEq, Repr

/-- Rust `f64::is_nan`. -/
def isNanF : F64 → Bool
  | .nan _ => true
  | _ => false

/-- Rust `f64::is_infinite`. -/
def isInfiniteF : F64 → Bool
  | .inf _ => true
  | _ => false

/-- Rust `f64::is_sign_negative`. -/
def isSignNegativeF : F64 → Bool
  | .nan neg => neg
  | .inf neg => neg
  | .finite neg _ _ => neg

/-- Rust `f64::is_normal` (finite and non-zero; the model has no
subnormals). -/
def isNormalF : F64 → Bool
  | .finite _ ip frac => !(ip == 0 && frac.isEmpty)
  | _ => false

/-- Rust `f == 0.0` (true for both signed zeros). -/
def isZeroF : F64 → Bool
  | .finite _ 0 [] => true
  | _ => false

/-- Rust `f.fract() == 0.0`. -/
def fractZeroF : F64 → Bool
  | .finite _ _ frac => frac.isEmpty
  | _ => false

/-- Rust `f64::to_string` (`Display` never uses exponent notation and prints
no decimal point when the value is integral). Only the `finite` case is
exercised by the code under verification. -/
def f64ToChars : F64 → List Char
  | .finite neg ip frac =>
    (if neg then ['-'] else []) ++ natDecChars ip ++
      (if frac.isEmpty then [] else '.' :: frac.map digitCh)
  | .nan _ => ['N', 'a', 'N']
  | .inf neg => if neg then ['-', 'i', 'n', 'f'] else ['i', 'n', 'f']

/-- Drop trailing zero digits of a fraction (distinct renderings of one
float collapse to the canonical one). -/
def stripTrailingZeros (l : List Nat) : List Nat :=
  (l.reverse.dropWhile (· == 0)).reverse

/-- Split a character list at the first `'.'`. -/
def splitAtDot : List Char → List Char × Option (List Char)
  | [] => ([], none)
  | c :: rest =>
    if c = '.' then ([], some rest)
    else
      let p := splitAtDot rest
      (c :: p.1, p.2)

/-- Digit values of a character list, `none` if any is not a digit. -/
def digitsVals : List Char → Option (List Nat)
  | [] => some []
  | c :: rest =>
    match digitVal c, digitsVals rest with
    | some d, some tl => some (d :: tl)
    | _, _ => none

/-- Magnitude part of the float grammar: `digits [ '.' digits ]`. -/
def parseF64Mag (neg : Bool) (cs : List Char) : Option F64 :=
  let p := splitAtDot cs
  match p.2 with
  | none => (parseNatChars p.1).map (fun n => F64.finite neg n [])
  | some fracCs =>
    match parseNatChars p.1, digitsVals fracCs with
    | some n, some ds => some (F64.finite neg n (stripTrailingZeros ds))
    | _, _ => none

/-- Rust `str::parse::<f64>` restricted to the plain decimal grammar that
`to_string` emits (the model does not accept exponent or `inf`/`NaN`
spellings, which no verified code path produces). -/
def parseF64Chars (cs : List Char) : Option F64 :=
  if cs.head? = some '-' then parseF64Mag true cs.tail else parseF64Mag false cs

/-! ## Sorting regex option characters (Rust `Vec::<char>::sort`) -/

/-- Ordered insertion of a character. -/
def insertCh (c : Char) : List Char → List Char
  | [] => [c]
  | x :: xs => if c ≤ x then c :: x :: xs else x :: insertCh c xs

/-- Insertion sort on characters; agrees with Rust's stable `sort` (equal
characters are indistinguishable). -/
def insertionSortCh : List Char → List Char
  | [] => []
  | x :: xs => insertCh x (insertionSortCh xs)

/-- `options.chars().collect()`, `sort`, re-collect — the canonicalization
every regex encode/decode path performs. -/
def sortChars (s : String) : String := String.mk (insertionSortCh s.data)

/-- Ascending-order check on a character list. -/
def isSortedCh : List Char → Bool
  | [] => true
  | [_] => true
  | a :: b :: rest => a ≤ b && isSortedCh (b :: rest)

theorem insertCh_sorted (c : Char) (l : List Char) (h : isSortedCh l = true) :
    isSortedCh (insertCh c l) = true := by
  induction l with
  | nil => rfl
  | cons x xs ih =>
    simp only [insertCh]
    split
    · rename_i hle
      show (decide (c ≤ x) && isSortedCh (x :: xs)) = true
      rw [h]
      simp [hle]
    · rename_i hnle
      have hxc : x ≤ c := le_of_not_le hnle
      cases xs with
      | nil =>
        simp [insertCh, isSortedCh, hxc]
      | cons y ys =>
        have hh : (decide (x ≤ y) && isSortedCh (y :: ys)) = true := h
        have hxy : x ≤ y := of_decide_eq_true (Bool.and_eq_true_iff.mp hh).1
        have hys : isSortedCh (y :: ys) = true := (Bool.and_eq_true_iff.mp hh).2
        have hrec := ih hys
        simp only [insertCh] at hrec ⊢
        split
        · rename_i hcy
          rw [if_pos hcy] at hrec
          show (decide (x ≤ c) && isSortedCh (c :: y :: ys)) = true
          simp [hxc, hrec]
        · rename_i hncy
          rw [if_neg hncy] at hrec
          show (decide (x ≤ y) && isSortedCh (y :: insertCh c ys)) = true
          simp [hxy, hrec]

theorem insertionSortCh_sorted (l : List Char) : isSortedCh (insertionSortCh l) = true := by
  induction l with
  | nil => rfl
  | cons x xs ih => exact insertCh_sorted x _ ih

theorem insertCh_of_le_head (c x : Char) (xs : List Char) (h : c ≤ x) :
    insertCh c (x :: xs) = c :: x :: xs := by
  rw [insertCh, if_pos h]

theorem insertionSortCh_of_sorted (l : List Char) (h : isSortedCh l = true) :
    insertionSortCh l = l := by
  induction l with
  | nil => rfl
  | cons x xs ih =>
    cases xs with
    | nil => rfl
    | cons y ys =>
      have hx : x ≤ y := by
        have heq : isSortedCh (x :: y :: ys) = (decide (x ≤ y) && isSortedCh (y :: ys)) := rfl
        rw [heq] at h
        exact of_decide_eq_true (Bool.and_eq_true_iff.mp h).1
      have hxs : isSortedCh (y :: ys) = true := by
        have heq : isSortedCh (x :: y :: ys) = (decide (x ≤ y) && isSortedCh (y :: ys)) := rfl
        rw [heq] at h
        exact (Bool.and_eq_true_iff.mp h).2
      rw [insertionSortCh, ih hxs, insertCh_of_le_head _ _ _ hx]

theorem sortChars_of_sorted (s : String) (h : isSortedCh s.data = true) :
    sortChars s = s := by
  rw [sortChars, insertionSortCh_of_sorted _ h]

/-! ## The BSON value model (`enum Bson` of `src/bson.rs`)

`Document` (the ordered key/value container) is an external collaborator;
the spec fixes it to an ordered sequence of `(String, Bson)` pairs, embedded
here as the mutual inductive `BDoc`.  Sub-payloads that the two source files
treat as opaque are carried as raw data: an `ObjectId` is its 12 bytes, a
`Decimal128` an opaque numeral, a `chrono::DateTime<Utc>` its epoch-second
count and sub-second nanoseconds (`0 ≤ nanos < 10^9`). -/

mutual

inductive Bson where
  | double (v : F64)
  | string (v : String)
  | array (a : BArr)
  | document (d : BDoc)
  | boolean (v : Bool)
  | null
  | regularExpression (pattern : String) (opts : String)
  | javaScriptCode (code : String)
  | javaScriptCodeWithScope (code : String) (scope : BDoc)
  | int32 (v : Int)
  | int64 (v : Int)
  | timestamp (time : Nat) (increment : Nat)
  | binary (subtype : Nat) (bytes : List Nat)
  | objectId (oid : List Nat)
  | dateTime (secs : Int) (nanos : Nat)
  | symbol (v : String)
  | decimal128 (v : Nat)
  | undefined
  | maxKey
  | minKey
  | dbPointer (ns : String) (oid : List Nat)

inductive BArr where
  | nil
  | cons (hd : Bson) (tl : BArr)

inductive BDoc where
  | nil
  | cons (k : String) (v : Bson) (tl : BDoc)

end

/-- Keys of a document, in order. -/
def BDoc.keys : BDoc → List String
  | .nil => []
  | .cons k _ tl => k :: BDoc.keys tl

/-- Number of entries (`Document::len`). -/
def BDoc.size : BDoc → Nat
  | .nil => 0
  | .cons _ _ tl => BDoc.size tl + 1

/-- First value stored at `key` (`Document::get`; typed accessors see only
the first match). Modelled from the spec: the container itself is an
external collaborator. -/
def BDoc.get : BDoc → String → Option Bson
  | .nil, _ => none
  | .cons k v tl, key => if k = key then some v else BDoc.get tl key

/-! ## The generic JSON model (`serde_json::Value`)

`serde_json` is external; the model keeps objects as insertion-ordered
key/value sequences (the crate is used with order-preserving maps) and keeps
numbers in the three-variant form of `serde_json::Number`: a non-negative
integer that fit in `u64`, a negative integer that fit in `i64`, or a
double. -/

inductive JNumber where
  | uint (n : Nat)
  | nint (v : Int)
  | float (f : F64)
  deriving DecidableEq, Repr

mutual

inductive JValue where
  | null
  | bool (b : Bool)
  | num (n : JNumber)
  | str (s : String)
  | arr (a : JArr)
  | obj (o : JObj)

inductive JArr where
  | nil
  | cons (hd : JValue) (tl : JArr)

inductive JObj where
  | nil
  | cons (k : String) (v : JValue) (tl : JObj)

end

/-- `Map::contains_key`. -/
def JObj.containsKey : JObj → String → Bool
  | .nil, _ => false
  | .cons k _ tl, key => k == key || JObj.containsKey tl key

/-- First value stored at `key` (map lookup). -/
def JObj.lookup : JObj → String → Option JValue
  | .nil, _ => none
  | .cons k v tl, key => if k = key then some v else JObj.lookup tl key

/-- All keys drawn from `allowed` (the `deny_unknown_fields` check of the
derived serde deserializers). -/
def JObj.keysAmong : JObj → List String → Bool
  | .nil, _ => true
  | .cons k _ tl, allowed => allowed.contains k && JObj.keysAmong tl allowed

/-- Number of fields. -/
def JObj.size : JObj → Nat
  | .nil => 0
  | .cons _ _ tl => JObj.size tl + 1

/-! ## `Timestamp` packing (`Timestamp::to_le_i64` / `from_le_i64`)

`u32::to_le` / `i64::to_le` are value-level identities (they only commit the
in-memory byte order); the casts `as u64` / `as i64` are two's-complement
reinterpretations, written out below. -/

/-- `u64 as i64` (two's-complement reinterpretation of `n < 2^64`). -/
def u64AsI64 (n : Nat) : Int :=
  if n < 2 ^ 63 then Int.ofNat n else Int.ofNat n - 2 ^ 64

/-- `i64 as u64` (two's-complement reinterpretation). -/
def i64AsU64 (v : Int) : Nat := (v % 2 ^ 64).toNat

/-- BSON timestamp: epoch seconds and same-second counter, both `u32`. -/
structure Timestamp where
  time : Nat
  increment : Nat
  deriving DecidableEq, Repr

/-- `Timestamp::to_le_i64`: seconds in the high 32 bits, increment in the
low 32 bits, reinterpreted as `i64`. -/
def Timestamp.toLeI64 (ts : Timestamp) : Int :=
  u64AsI64 ((ts.time <<< 32) ||| ts.increment)

/-- `Timestamp::from_le_i64`. -/
def Timestamp.fromLeI64 (val : Int) : Timestamp :=
  { time := i64AsU64 val >>> 32, increment := i64AsU64 val &&& 0xFFFFFFFF }

/-! ## Round-trip lemmas for the float and timestamp models -/

theorem isDigitCh_ne_dot {c : Char} (h : isDigitCh c = true) : c ≠ '.' := by
  intro he
  subst he
  simp [isDigitCh] at h

theorem isDigitCh_ne_dash {c : Char} (h : isDigitCh c = true) : c ≠ '-' := by
  intro he
  subst he
  simp [isDigitCh] at h

theorem splitAtDot_no_dot (l : List Char) (h : ∀ c ∈ l, isDigitCh c = true) :
    splitAtDot l = (l, none) := by
  induction l with
  | nil => rfl
  | cons c rest ih =>
    rw [splitAtDot, if_neg (isDigitCh_ne_dot (h c (List.mem_cons_self _ _))),
      ih (fun x hx => h x (List.mem_cons_of_mem _ hx))]

theorem splitAtDot_append_dot (l r : List Char) (h : ∀ c ∈ l, isDigitCh c = true) :
    splitAtDot (l ++ '.' :: r) = (l, some r) := by
  induction l with
  | nil => simp [splitAtDot]
  | cons c rest ih =>
    rw [List.cons_append, splitAtDot,
      if_neg (isDigitCh_ne_dot (h c (List.mem_cons_self _ _))),
      ih (fun x hx => h x (List.mem_cons_of_mem _ hx))]

theorem digitsVals_map (ds : List Nat) (h : ∀ d ∈ ds, d < 10) :
    digitsVals (ds.map digitCh) = some ds := by
  induction ds with
  | nil => rfl
  | cons d rest ih =>
    rw [List.map_cons, digitsVals, digitVal_digitCh (h d (List.mem_cons_self _ _)),
      ih (fun x hx => h x (List.mem_cons_of_mem _ hx))]

theorem parseF64Mag_plain (neg : Bool) (ip : Nat) :
    parseF64Mag neg (natDecChars ip) = some (F64.finite neg ip []) := by
  rw [parseF64Mag]
  have hs := splitAtDot_no_dot (natDecChars ip) (natDecChars_all_digits ip)
  simp only [hs, parseNatChars_natDecChars, Option.map_some']

theorem parseF64Mag_frac (neg : Bool) (ip : Nat) (frac : List Nat)
    (hd : ∀ d ∈ frac, d < 10) (hcanon : stripTrailingZeros frac = frac) :
    parseF64Mag neg (natDecChars ip ++ '.' :: frac.map digitCh) =
      some (F64.finite neg ip frac) := by
  rw [parseF64Mag]
  have hs := splitAtDot_append_dot (natDecChars ip) (frac.map digitCh)
    (natDecChars_all_digits ip)
  simp only [hs, parseNatChars_natDecChars, digitsVals_map frac hd, hcanon]

theorem parseF64Chars_neg_prefix (cs : List Char) :
    parseF64Chars ('-' :: cs) = parseF64Mag true cs := by
  rw [parseF64Chars]
  simp

theorem parseF64Chars_digits_prefix (cs : List Char) (c : Char) (rest : List Char)
    (hcs : cs = c :: rest) (hdig : isDigitCh c = true) :
    parseF64Chars cs = parseF64Mag false cs := by
  subst hcs
  rw [parseF64Chars, if_neg]
  simp only [List.head?_cons, Option.some.injEq]
  exact isDigitCh_ne_dash hdig

theorem parseF64Chars_sign_mag (neg : Bool) (cs : List Char) (c : Char) (rest : List Char)
    (hcs : cs = c :: rest) (hdig : isDigitCh c = true) :
    parseF64Chars ((if neg then ['-'] else []) ++ cs) = parseF64Mag neg cs := by
  cases neg with
  | false =>
    rw [if_neg (by simp), List.nil_append]
    exact parseF64Chars_digits_prefix cs c rest hcs hdig
  | true =>
    rw [if_pos rfl, List.singleton_append]
    exact parseF64Chars_neg_prefix cs

theorem natDecChars_shape (ip : Nat) :
    ∃ c rest, natDecChars ip = c :: rest ∧ isDigitCh c = true := by
  rcases hcs : natDecChars ip with _ | ⟨c, rest⟩
  · exact absurd hcs (natDecChars_ne_nil ip)
  · refine ⟨c, rest, rfl, ?_⟩
    apply natDecChars_all_digits
    rw [hcs]
    exact List.mem_cons_self _ _

/-- Parsing the rendering of a canonical finite float returns it exactly. -/
theorem parseF64Chars_f64ToChars (neg : Bool) (ip : Nat) (frac : List Nat)
    (hd : ∀ d ∈ frac, d < 10) (hcanon : stripTrailingZeros frac = frac) :
    parseF64Chars (f64ToChars (F64.finite neg ip frac)) =
      some (F64.finite neg ip frac) := by
  obtain ⟨c, rest, hcs, hdig⟩ := natDecChars_shape ip
  rw [f64ToChars]
  cases frac with
  | nil =>
    simp only [List.isEmpty_nil, if_pos, List.append_nil, ite_true, reduceIte]
    rw [parseF64Chars_sign_mag neg _ c rest hcs hdig, parseF64Mag_plain]
  | cons d ds =>
    simp only [List.isEmpty_cons, Bool.false_eq_true, ite_false, reduceIte,
      List.append_assoc]
    have hshape : natDecChars ip ++ '.' :: (d :: ds).map digitCh =
        c :: (rest ++ '.' :: (d :: ds).map digitCh) := by
      rw [hcs]
      simp
    rw [parseF64Chars_sign_mag neg _ c (rest ++ '.' :: (d :: ds).map digitCh) hshape hdig,
      parseF64Mag_frac neg ip (d :: ds) hd hcanon]

/-- Parsing the canonical encoder's forced-`.0` rendering of an integral
float returns it exactly. -/
theorem parseF64Chars_forcedZero (neg : Bool) (ip : Nat) :
    parseF64Chars ((if neg then ['-'] else []) ++ (natDecChars ip ++ ['.', '0'])) =
      some (F64.finite neg ip []) := by
  obtain ⟨c, rest, hcs, hdig⟩ := natDecChars_shape ip
  have hshape : natDecChars ip ++ ['.', '0'] = c :: (rest ++ ['.', '0']) := by
    rw [hcs]
    simp
  rw [parseF64Chars_sign_mag neg _ c (rest ++ ['.', '0']) hshape hdig]
  have h0 : (['0'] : List Char) = ([0] : List Nat).map digitCh := by decide
  have : natDecChars ip ++ ['.', '0'] = natDecChars ip ++ '.' :: ([0] : List Nat).map digitCh := by
    rw [← h0]
  rw [this, parseF64Mag, splitAtDot_append_dot _ _ (natDecChars_all_digits ip)]
  simp only [parseNatChars_natDecChars, digitsVals_map [0] (by decide)]
  rfl

theorem i64AsU64_u64AsI64 {n : Nat} (h : n < 2 ^ 64) : i64AsU64 (u64AsI64 n) = n := by
  rw [u64AsI64, i64AsU64]
  split <;> (simp only [Int.ofNat_eq_coe]; omega)

/-- Packing then unpacking a timestamp is the identity (`time`/`increment`
are `u32` values). -/
theorem timestamp_roundtrip (t i : Nat) (ht : t < 2 ^ 32) (hi : i < 2 ^ 32) :
    Timestamp.fromLeI64 (Timestamp.toLeI64 ⟨t, i⟩) = ⟨t, i⟩ := by
  have hor : (t <<< 32) ||| i = t * 2 ^ 32 + i := by
    rw [Nat.shiftLeft_eq, Nat.mul_comm t (2 ^ 32), ← Nat.mul_add_lt_is_or hi t]
  have hlt : (t <<< 32) ||| i < 2 ^ 64 := by
    rw [hor]
    calc t * 2 ^ 32 + i < (t + 1) * 2 ^ 32 := by ring_nf; omega
    _ ≤ 2 ^ 32 * 2 ^ 32 := by
        have : t + 1 ≤ 2 ^ 32 := ht
        calc (t + 1) * 2 ^ 32 ≤ 2 ^ 32 * 2 ^ 32 := Nat.mul_le_mul_right _ this
        _ = 2 ^ 32 * 2 ^ 32 := rfl
    _ = 2 ^ 64 := by norm_num
  rw [Timestamp.fromLeI64, Timestamp.toLeI64, i64AsU64_u64AsI64 hlt, hor]
  have hmask : (0xFFFFFFFF : Nat) = 2 ^ 32 - 1 := by norm_num
  have hand : (t * 2 ^ 32 + i) &&& 0xFFFFFFFF = i := by
    rw [hmask, Nat.and_pow_two_sub_one_eq_mod]
    omega
  have hshift : (t * 2 ^ 32 + i) >>> 32 = t := by
    rw [Nat.shiftRight_eq_div_pow]
    omega
  rw [hand, hshift]

/-! ## Decoder/encoder outcome types

A decode path returns `Except DErr α`: `DErr.fail` models a structured
`DecoderError` handed to the caller, `DErr.fatal` models a process-fatal
condition (`panic!`, `todo!`, `unwrap` on `None`/`Err`).  The encoders
return `Except String JValue`, whose `error` case models a `panic!` (they
have no structured error path in the source). -/

inductive DErr where
  | fail (msg : String)
  | fatal (msg : String)
  deriving DecidableEq, Repr

/-- Milliseconds-since-epoch of a `chrono::DateTime<Utc>` held as epoch
seconds plus sub-second nanoseconds (`timestamp_millis`). -/
def timestampMillis (secs : Int) (nanos : Nat) : Int :=
  secs * 1000 + Int.ofNat (nanos / 1000000)

/-- The `$date` canonical decode's decomposition of a millisecond count into
seconds and milliseconds: Rust `/` and `%` truncate toward zero, and the
negative-remainder fix-up shifts to a non-negative remainder (both
`TryFrom<Value>`'s `$date` branch and `from_extended_document` inline this
computation verbatim). -/
def msToSecsMillis (date : Int) : Int × Int :=
  let numSecs := date.tdiv 1000
  let numMillis := date.tmod 1000
  if numMillis < 0 then (numSecs - 1, numMillis + 1000) else (numSecs, numMillis)

theorem tmod_1000_bounds (a : Int) : -1000 < a.tmod 1000 ∧ a.tmod 1000 < 1000 := by
  constructor
  · cases a with
    | ofNat m =>
      have h0 : (0 : Int) ≤ Int.ofNat m := by
        simp only [Int.ofNat_eq_coe]
        exact Int.natCast_nonneg m
      have := Int.tmod_nonneg 1000 h0
      omega
    | negSucc m =>
      have h : Int.tmod (Int.negSucc m) 1000 = -(Int.ofNat ((m + 1) % 1000)) := rfl
      rw [h]
      have hm : (m + 1) % 1000 < 1000 := Nat.mod_lt _ (by norm_num)
      simp only [Int.ofNat_eq_coe]
      omega
  · exact Int.tmod_lt_of_pos a (by norm_num)

theorem msToSecsMillis_spec (date : Int) :
    (msToSecsMillis date).1 * 1000 + (msToSecsMillis date).2 = date ∧
      0 ≤ (msToSecsMillis date).2 ∧ (msToSecsMillis date).2 ≤ 999 := by
  have hdm : 1000 * date.tdiv 1000 + date.tmod 1000 = date := Int.tdiv_add_tmod date 1000
  have hb := tmod_1000_bounds date
  rw [msToSecsMillis]
  split <;> constructor <;> try constructor
  all_goals omega

theorem msToSecsMillis_recompose {s m : Int} (hm0 : 0 ≤ m) (hm1 : m < 1000) :
    msToSecsMillis (s * 1000 + m) = (s, m) := by
  have h1 := msToSecsMillis_spec (s * 1000 + m)
  rcases h1 with ⟨heq, hlo, hhi⟩
  rcases h : msToSecsMillis (s * 1000 + m) with ⟨a, b⟩
  rw [h] at heq hlo hhi
  simp only at heq hlo hhi
  have hb : b = m := by
    by_cases hab : a = s
    · subst hab; omega
    · exfalso
      rcases lt_or_gt_of_ne hab with hlt | hgt
      · have : a ≤ s - 1 := by omega
        nlinarith
      · have : s + 1 ≤ a := by omega
        nlinarith
  have ha : a = s := by
    subst hb
    have : a * 1000 = s * 1000 := by omega
    omega
  rw [ha, hb]

/-! ## Integer range checks and serde number construction -/

/-- `i32::MIN ≤ v ≤ i32::MAX`. -/
def inI32Range (v : Int) : Bool := decide (-(2 ^ 31) ≤ v ∧ v < 2 ^ 31)

/-- `i64::MIN ≤ v ≤ i64::MAX`. -/
def inI64Range (v : Int) : Bool := decide (-(2 ^ 63) ≤ v ∧ v < 2 ^ 63)

/-- `serde_json::Number::from` on a signed integer: non-negative values are
stored as the `u64` variant, negative ones as the `i64` variant. -/
def jnumOfInt (v : Int) : JNumber :=
  if 0 ≤ v then .uint v.toNat else .nint v

/-- Rust `str::parse::<i32>` (value plus range check). -/
def parseI32 (s : String) : Option Int :=
  (parseIntChars s.data).bind (fun v => if inI32Range v then some v else none)

/-- Rust `str::parse::<i64>` (value plus range check). -/
def parseI64 (s : String) : Option Int :=
  (parseIntChars s.data).bind (fun v => if inI64Range v then some v else none)

/-! ## The extended-JSON encoders (`Bson::into_relaxed_extjson` /
`Bson::into_canonical_extjson`)

The error case of the returned `Except` models the one `panic!` these
methods contain (the `Decimal128` arm when the `decimal128` feature is
absent, which is the configuration under verification; the crate's doc
comment announces this panic).  Two sub-encodings go through the missing
`serde` `Serialize` impls in the source (`json!(v)` on a `Vec<Bson>` and on
a scope `Document`); they are modelled from the spec as elementwise relaxed
encoding. -/

/-- Modelled from the spec: chrono's RFC3339 formatter.  It is an external
total function whose output no verified claim interprets; the stand-in
below is an arbitrary injective rendering of the instant. -/
def rfc3339Render (secs : Int) (nanos : Nat) (secsOnly : Bool) : String :=
  String.mk (intDecChars secs) ++ "T" ++ String.mk (natDecChars nanos) ++
    (if secsOnly then "Z" else "MZ")

/-- Modelled from the spec: `v.year() <= 99999` for a
`chrono::DateTime<Utc>`, an external total predicate on the instant
(`99999-12-31T23:59:59Z` is epoch second `3093527980799`). -/
def yearAtMost99999 (secs : Int) : Bool := decide (secs ≤ 3093527980799)

/-- `v.timestamp_subsec_millis() == 0`. -/
def subsecMillisZero (nanos : Nat) : Bool := nanos / 1000000 == 0

mutual

/-- `Bson::into_relaxed_extjson` (match arms in source order). -/
def intoRelaxedExtjson : Bson → Except String JValue
  | .double v =>
    if isNanF v then
      .ok (.obj (.cons "$numberDouble"
        (.str (if isSignNegativeF v then "-NaN" else "NaN")) .nil))
    else if isInfiniteF v then
      .ok (.obj (.cons "$numberDouble"
        (.str (if isSignNegativeF v then "-Infinity" else "Infinity")) .nil))
    else .ok (.num (.float v))
  | .string v => .ok (.str v)
  | .array a => (relaxedArr a).map JValue.arr
  | .document d => (relaxedObj d).map JValue.obj
  | .boolean b => .ok (.bool b)
  | .null => .ok .null
  | .regularExpression pattern opts =>
    .ok (.obj (.cons "$regularExpression"
      (.obj (.cons "pattern" (.str pattern)
        (.cons "options" (.str (sortChars opts)) .nil))) .nil))
  | .javaScriptCode code => .ok (.obj (.cons "$code" (.str code) .nil))
  | .javaScriptCodeWithScope code scope =>
    (relaxedObj scope).map (fun so =>
      .obj (.cons "$code" (.str code) (.cons "$scope" (.obj so) .nil)))
  | .int32 v => .ok (.num (jnumOfInt v))
  | .int64 v => .ok (.num (jnumOfInt v))
  | .timestamp time increment =>
    .ok (.obj (.cons "$timestamp"
      (.obj (.cons "t" (.num (.uint time)) (.cons "i" (.num (.uint increment)) .nil)))
      .nil))
  | .binary subtype bytes =>
    .ok (.obj (.cons "$binary"
      (.obj (.cons "base64" (.str (String.mk (b64Encode bytes)))
        (.cons "subType" (.str (String.mk (hexEncode [subtype]))) .nil))) .nil))
  | .objectId oid => .ok (.obj (.cons "$oid" (.str (String.mk (hexEncode oid))) .nil))
  | .dateTime secs nanos =>
    if 0 ≤ timestampMillis secs nanos ∧ yearAtMost99999 secs = true then
      .ok (.obj (.cons "$date"
        (.str (rfc3339Render secs nanos (subsecMillisZero nanos))) .nil))
    else
      .ok (.obj (.cons "$date"
        (.obj (.cons "$numberLong"
          (.str (String.mk (intDecChars (timestampMillis secs nanos)))) .nil)) .nil))
  | .symbol v => .ok (.obj (.cons "$symbol" (.str v) .nil))
  | .decimal128 _ =>
    .error "Decimal128 extended JSON not implemented yet. Use the decimal128 feature to enable experimental support for it."
  | .undefined => .ok (.obj (.cons "$undefined" (.bool true) .nil))
  | .minKey => .ok (.obj (.cons "$minKey" (.num (.uint 1)) .nil))
  | .maxKey => .ok (.obj (.cons "$maxKey" (.num (.uint 1)) .nil))
  | .dbPointer ns oid =>
    .ok (.obj (.cons "$dbPointer"
      (.obj (.cons "$ref" (.str ns)
        (.cons "$id" (.obj (.cons "$oid" (.str (String.mk (hexEncode oid))) .nil)) .nil)))
      .nil))

/-- Elementwise relaxed encoding of an array (`json!(v)` on `Vec<Bson>`,
modelled from the spec). -/
def relaxedArr : BArr → Except String JArr
  | .nil => .ok .nil
  | .cons hd tl =>
    match intoRelaxedExtjson hd, relaxedArr tl with
    | .ok j, .ok rest => .ok (.cons j rest)
    | .error e, _ => .error e
    | _, .error e => .error e

/-- Fieldwise relaxed encoding of a document
(`Value::Object(v.into_iter().map(|(k, v)| (k, Value::from(v))).collect())`). -/
def relaxedObj : BDoc → Except String JObj
  | .nil => .ok .nil
  | .cons k v tl =>
    match intoRelaxedExtjson v, relaxedObj tl with
    | .ok j, .ok rest => .ok (.cons k j rest)
    | .error e, _ => .error e
    | _, .error e => .error e

end

mutual

/-- `Bson::into_canonical_extjson` (match arms in source order; the final
arm defers to the relaxed encoder). -/
def intoCanonicalExtjson : Bson → Except String JValue
  | .int32 i => .ok (.obj (.cons "$numberInt" (.str (String.mk (intDecChars i))) .nil))
  | .int64 i => .ok (.obj (.cons "$numberLong" (.str (String.mk (intDecChars i))) .nil))
  | .double f =>
    if isNormalF f then
      .ok (.obj (.cons "$numberDouble"
        (.str (String.mk (f64ToChars f ++ (if fractZeroF f then ['.', '0'] else []))))
        .nil))
    else if isZeroF f then
      .ok (.obj (.cons "$numberDouble"
        (.str (if isSignNegativeF f then "-0.0" else "0.0")) .nil))
    else intoRelaxedExtjson (.double f)
  | .dateTime secs nanos =>
    .ok (.obj (.cons "$date"
      (.obj (.cons "$numberLong"
        (.str (String.mk (intDecChars (timestampMillis secs nanos)))) .nil)) .nil))
  | .array arr => (canonicalArr arr).map JValue.arr
  | .document d => (canonicalObj d).map JValue.obj
  | .javaScriptCodeWithScope code scope =>
    (canonicalObj scope).map (fun so =>
      .obj (.cons "$code" (.str code) (.cons "$scope" (.obj so) .nil)))
  | other => intoRelaxedExtjson other

/-- Elementwise canonical encoding of an array. -/
def canonicalArr : BArr → Except String JArr
  | .nil => .ok .nil
  | .cons hd tl =>
    match intoCanonicalExtjson hd, canonicalArr tl with
    | .ok j, .ok rest => .ok (.cons j rest)
    | .error e, _ => .error e
    | _, .error e => .error e

/-- Fieldwise canonical encoding of a document. -/
def canonicalObj : BDoc → Except String JObj
  | .nil => .ok .nil
  | .cons k v tl =>
    match intoCanonicalExtjson v, canonicalObj tl with
    | .ok j, .ok rest => .ok (.cons k j rest)
    | .error e, _ => .error e
    | _, .error e => .error e

end

/-! ## Wrapper-body extraction (the derived serde deserializers)

Each `#[derive(Deserialize)] #[serde(deny_unknown_fields)]` wrapper struct
deserialized with `serde_json::from_value` succeeds exactly when the object
has the expected fields of the expected JSON types and no others; these
helpers model that.  JSON objects are maps, so keys are unique in every
value the code can receive. -/

/-- A one-field struct holding a `String` (`deny_unknown_fields`). -/
def singleStringField (o : JObj) (key : String) : Except DErr String :=
  if o.keysAmong [key] then
    match o.lookup key with
    | some (.str s) => .ok s
    | some _ => .error (.fail "invalid type")
    | none => .error (.fail "missing field")
  else .error (.fail "unknown field")

/-- A one-field struct holding a `bool`. -/
def singleBoolField (o : JObj) (key : String) : Except DErr Bool :=
  if o.keysAmong [key] then
    match o.lookup key with
    | some (.bool b) => .ok b
    | some _ => .error (.fail "invalid type")
    | none => .error (.fail "missing field")
  else .error (.fail "unknown field")

/-- A one-field struct holding a `u8` (serde accepts a JSON number that is a
non-negative integer at most 255). -/
def singleU8Field (o : JObj) (key : String) : Except DErr Nat :=
  if o.keysAmong [key] then
    match o.lookup key with
    | some (.num (.uint n)) => if n < 256 then .ok n else .error (.fail "invalid value")
    | some _ => .error (.fail "invalid type")
    | none => .error (.fail "missing field")
  else .error (.fail "unknown field")

/-- A `u32` field value. -/
def u32FieldValue : Option JValue → Except DErr Nat
  | some (.num (.uint n)) =>
    if n < 2 ^ 32 then .ok n else .error (.fail "invalid value")
  | some _ => .error (.fail "invalid type")
  | none => .error (.fail "missing field")

/-- Modelled from the spec: `ObjectId::with_string` — 24 hex characters
decoding to the 12 identifier bytes. -/
def oidWithString (s : String) : Except DErr (List Nat) :=
  if s.data.length = 24 then
    match hexDecode s.data with
    | some bytes => .ok bytes
    | none => .error (.fail "invalid ObjectId hex")
  else .error (.fail "invalid ObjectId length")

/-- The `$oid` branch: `ExtJsonOid` extraction plus `ObjectId::with_string`. -/
def decodeOidObj (o : JObj) : Except DErr Bson :=
  (singleStringField o "$oid").bind (fun s => (oidWithString s).map Bson.objectId)

/-- The `$symbol` branch. -/
def decodeSymbolObj (o : JObj) : Except DErr Bson :=
  (singleStringField o "$symbol").map Bson.symbol

/-- The `$regularExpression` branch: body with exactly `pattern` and
`options` strings; the options characters are collected, sorted and
re-collected. -/
def decodeRegexObj (o : JObj) : Except DErr Bson :=
  if o.keysAmong ["$regularExpression"] then
    match o.lookup "$regularExpression" with
    | some (.obj body) =>
      if body.keysAmong ["pattern", "options"] then
        match body.lookup "pattern", body.lookup "options" with
        | some (.str p), some (.str opts) =>
          .ok (.regularExpression p (sortChars opts))
        | _, _ => .error (.fail "invalid regularExpression body")
      else .error (.fail "unknown field")
    | some _ => .error (.fail "invalid type")
    | none => .error (.fail "missing field")
  else .error (.fail "unknown field")

/-- The `$numberInt` branch: string payload parsed as `i32`. -/
def decodeNumberIntObj (o : JObj) : Except DErr Bson :=
  (singleStringField o "$numberInt").bind (fun s =>
    match parseI32 s with
    | some i => .ok (.int32 i)
    | none => .error (.fail "expected i32"))

/-- The `$numberLong` branch (`ExtJsonInt64`): string payload parsed as
`i64`. -/
def decodeNumberLongObj (o : JObj) : Except DErr Bson :=
  (singleStringField o "$numberLong").bind (fun s =>
    match parseI64 s with
    | some i => .ok (.int64 i)
    | none => .error (.fail "expected i64 as a string"))

/-- The `$numberDouble` branch: the literals `Infinity`, `-Infinity`, `NaN`
and otherwise a parsed double. -/
def decodeNumberDoubleObj (o : JObj) : Except DErr Bson :=
  (singleStringField o "$numberDouble").bind (fun s =>
    if s = "Infinity" then .ok (.double (.inf false))
    else if s = "-Infinity" then .ok (.double (.inf true))
    else if s = "NaN" then .ok (.double (.nan false))
    else
      match parseF64Chars s.data with
      | some f => .ok (.double f)
      | none => .error (.fail "expected bson double as string"))

/-- The `$binary` branch: base64 payload, two-hex-digit subtype that must
decode to exactly one byte. -/
def decodeBinaryObj (o : JObj) : Except DErr Bson :=
  if o.keysAmong ["$binary"] then
    match o.lookup "$binary" with
    | some (.obj body) =>
      if body.keysAmong ["base64", "subType"] then
        match body.lookup "base64", body.lookup "subType" with
        | some (.str b64), some (.str sub) =>
          match b64Decode b64.data with
          | some bytes =>
            match hexDecode sub.data with
            | some subBytes =>
              match subBytes with
              | [st] => .ok (.binary st bytes)
              | _ => .error (.fail "one byte subtype")
            | none => .error (.fail "hexadecimal number as a string")
          | none => .error (.fail "base64 encoded bytes")
        | _, _ => .error (.fail "invalid binary body")
      else .error (.fail "unknown field")
    | some _ => .error (.fail "invalid type")
    | none => .error (.fail "missing field")
  else .error (.fail "unknown field")

/-- The `$timestamp` branch: body with exactly `t` and `i` as `u32`. -/
def decodeTimestampObj (o : JObj) : Except DErr Bson :=
  if o.keysAmong ["$timestamp"] then
    match o.lookup "$timestamp" with
    | some (.obj body) =>
      if body.keysAmong ["t", "i"] then
        match u32FieldValue (body.lookup "t"), u32FieldValue (body.lookup "i") with
        | .ok t, .ok i => .ok (.timestamp t i)
        | .error e, _ => .error e
        | _, .error e => .error e
      else .error (.fail "unknown field")
    | some _ => .error (.fail "invalid type")
    | none => .error (.fail "missing field")
  else .error (.fail "unknown field")

/-- Split a character list at the first occurrence of `ch`. -/
def splitAtCh (ch : Char) : List Char → List Char × Option (List Char)
  | [] => ([], none)
  | c :: rest =>
    if c = ch then ([], some rest)
    else
      let p := splitAtCh ch rest
      (c :: p.1, p.2)

/-- Modelled from the spec: chrono's RFC3339 parser, the partial inverse of
the external formatter stand-in `rfc3339Render`; no verified claim
interprets it. -/
def parseRfc3339 (s : String) : Option (Int × Nat) :=
  match (splitAtCh 'T' s.data).2 with
  | none => none
  | some r =>
    match parseIntChars (splitAtCh 'T' s.data).1, parseNatChars (splitAtCh 'Z' r).1 with
    | some secs, some nanos => some (secs, nanos)
    | _, _ => none

/-- The `$date` branch: an untagged body that is either a canonical
`{"$numberLong": str}` object (milliseconds decomposed by
`msToSecsMillis`, then `Utc.timestamp(num_secs, num_millis * 1_000_000)`)
or a relaxed RFC3339 string. -/
def decodeDateObj (o : JObj) : Except DErr Bson :=
  if o.keysAmong ["$date"] then
    match o.lookup "$date" with
    | some (.obj body) =>
      (singleStringField body "$numberLong").bind (fun s =>
        match parseI64 s with
        | some date =>
          .ok (.dateTime (msToSecsMillis date).1 ((msToSecsMillis date).2.toNat * 1000000))
        | none => .error (.fail "expected i64 as a string"))
    | some (.str s) =>
      match parseRfc3339 s with
      | some (secs, nanos) => .ok (.dateTime secs nanos)
      | none => .error (.fail "rfc3339 formatted utc datetime")
    | some _ => .error (.fail "invalid type")
    | none => .error (.fail "missing field")
  else .error (.fail "unknown field")

/-- The `$minKey` branch: `u8` payload that must equal `1`. -/
def decodeMinKeyObj (o : JObj) : Except DErr Bson :=
  (singleU8Field o "$minKey").bind (fun v =>
    if v = 1 then .ok .minKey
    else .error (.fail "value of $minKey should always be 1"))

/-- The `$maxKey` branch: `u8` payload that must equal `1`. -/
def decodeMaxKeyObj (o : JObj) : Except DErr Bson :=
  (singleU8Field o "$maxKey").bind (fun v =>
    if v = 1 then .ok .maxKey
    else .error (.fail "value of $maxKey should always be 1"))

/-- The `$dbPointer` branch: body with exactly `$ref` (string) and `$id`
(an `ExtJsonOid` object). -/
def decodeDbPointerObj (o : JObj) : Except DErr Bson :=
  if o.keysAmong ["$dbPointer"] then
    match o.lookup "$dbPointer" with
    | some (.obj body) =>
      if body.keysAmong ["$ref", "$id"] then
        match body.lookup "$ref", body.lookup "$id" with
        | some (.str ns), some (.obj idObj) =>
          (singleStringField idObj "$oid").bind (fun s =>
            (oidWithString s).map (Bson.dbPointer ns))
        | _, _ => .error (.fail "invalid dbPointer body")
      else .error (.fail "unknown field")
    | some _ => .error (.fail "invalid type")
    | none => .error (.fail "missing field")
  else .error (.fail "unknown field")

/-- The `$numberDecimal` branch in the build under verification (the
`decimal128` feature absent): a structured decode error. -/
def decodeNumberDecimalObj (_ : JObj) : Except DErr Bson :=
  .error (.fail "decimal128 extjson support not implemented")

/-- The `$undefined` branch: `bool` payload that must be `true`. -/
def decodeUndefinedObj (o : JObj) : Except DErr Bson :=
  (singleBoolField o "$undefined").bind (fun b =>
    if b then .ok .undefined
    else .error (.fail "$undefined should always be true"))

/-- `Number::as_i64`. -/
def numAsI64 : JNumber → Option Int
  | .uint n => if n < 2 ^ 63 then some (Int.ofNat n) else none
  | .nint v => some v
  | .float _ => none

/-- `Number::as_u64`. -/
def numAsU64 : JNumber → Option Nat
  | .uint n => some n
  | _ => none

/-- `Number::as_f64`, as consulted by the decoder: it is only reached when
both integer views failed, i.e. on the float variant. -/
def numAsF64 : JNumber → Option F64
  | .float f => some f
  | _ => none

/-- The `Value::Number` branch: `as_i64` (with the `i32` range test), then
`as_u64` through `From<u64> for Bson` (which casts `a as i64`, wrapping),
then `as_f64`. -/
def decodeJsonNumber (x : JNumber) : Except DErr Bson :=
  match numAsI64 x with
  | some i => if inI32Range i then .ok (.int32 i) else .ok (.int64 i)
  | none =>
    match numAsU64 x with
    | some n => .ok (.int64 (u64AsI64 n))
    | none =>
      match numAsF64 x with
      | some f => .ok (.double f)
      | none => .error (.fail "a number that could fit in i32, i64, or f64")

mutual

/-- `TryFrom<serde_json::Value> for Bson`: the object branch tests the
wrapper keys with `contains_key` in source order and falls back to a plain
document decode; the remaining `Value` variants decode directly.  (The
source's final `_ => panic!("woo")` arm is unreachable: every `Value`
variant is covered before it.) -/
def tryFromValue : JValue → Except DErr Bson
  | .obj o =>
    if o.containsKey "$oid" then decodeOidObj o
    else if o.containsKey "$symbol" then decodeSymbolObj o
    else if o.containsKey "$regularExpression" then decodeRegexObj o
    else if o.containsKey "$numberInt" then decodeNumberIntObj o
    else if o.containsKey "$numberLong" then decodeNumberLongObj o
    else if o.containsKey "$numberDouble" then decodeNumberDoubleObj o
    else if o.containsKey "$binary" then decodeBinaryObj o
    else if o.containsKey "$code" then decodeCodeFromObj o
    else if o.containsKey "$timestamp" then decodeTimestampObj o
    else if o.containsKey "$date" then decodeDateObj o
    else if o.containsKey "$minKey" then decodeMinKeyObj o
    else if o.containsKey "$maxKey" then decodeMaxKeyObj o
    else if o.containsKey "$dbPointer" then decodeDbPointerObj o
    else if o.containsKey "$numberDecimal" then decodeNumberDecimalObj o
    else if o.containsKey "$undefined" then decodeUndefinedObj o
    else (docFromExtJson o).map Bson.document
  | .num x => decodeJsonNumber x
  | .str s => .ok (.string s)
  | .bool b => .ok (.boolean b)
  | .arr a => (arrFromJson a).map Bson.array
  | .null => .ok Bson.null

/-- The `$code` branch (`ExtJsonCode`): `$code` string with optional
`$scope` object (serde's `Option` also accepts JSON `null` as absence); any
other key is rejected by `deny_unknown_fields`.  A present scope is decoded
by `Document::from_ext_json`. -/
def decodeCodeFromObj : JObj → Except DErr Bson
  | .nil => .error (.fail "missing field")
  | .cons k1 v1 .nil =>
    if k1 = "$code" then
      match v1 with
      | .str c => .ok (.javaScriptCode c)
      | _ => .error (.fail "invalid type")
    else .error (.fail "unknown field")
  | .cons k1 v1 (.cons k2 v2 .nil) =>
    if k1 = "$code" ∧ k2 = "$scope" then
      match v1 with
      | .str c =>
        match v2 with
        | .obj so => (docFromExtJson so).map (fun d => .javaScriptCodeWithScope c d)
        | .null => .ok (.javaScriptCode c)
        | _ => .error (.fail "invalid type")
      | _ => .error (.fail "invalid type")
    else if k1 = "$scope" ∧ k2 = "$code" then
      match v2 with
      | .str c =>
        match v1 with
        | .obj so => (docFromExtJson so).map (fun d => .javaScriptCodeWithScope c d)
        | .null => .ok (.javaScriptCode c)
        | _ => .error (.fail "invalid type")
      | _ => .error (.fail "invalid type")
    else .error (.fail "unknown field")
  | _ => .error (.fail "unknown field")

/-- Modelled from the spec: `Document::from_ext_json` — a plain JSON object
becomes a document whose field values are recursively decoded. -/
def docFromExtJson : JObj → Except DErr BDoc
  | .nil => .ok .nil
  | .cons k v tl =>
    match tryFromValue v, docFromExtJson tl with
    | .ok bv, .ok rest => .ok (.cons k bv rest)
    | .error e, _ => .error e
    | _, .error e => .error e

/-- The `Value::Array` branch: elementwise `Bson::try_from`. -/
def arrFromJson : JArr → Except DErr BArr
  | .nil => .ok .nil
  | .cons v tl =>
    match tryFromValue v, arrFromJson tl with
    | .ok bv, .ok rest => .ok (.cons bv rest)
    | .error e, _ => .error e
    | _, .error e => .error e

end

/-! ## Document typed accessors (the external ordered container, modelled
from the spec: first match wins, fallible on absence or wrong type) -/

/-- `Document::get_str`. -/
def BDoc.getStr (d : BDoc) (key : String) : Except DErr String :=
  match d.get key with
  | some (.string s) => .ok s
  | some _ => .error (.fail "unexpected type")
  | none => .error (.fail "missing field")

/-- `Document::get_document`. -/
def BDoc.getDocument (d : BDoc) (key : String) : Except DErr BDoc :=
  match d.get key with
  | some (.document inner) => .ok inner
  | some _ => .error (.fail "unexpected type")
  | none => .error (.fail "missing field")

/-- `Document::get_i32`. -/
def BDoc.getI32 (d : BDoc) (key : String) : Except DErr Int :=
  match d.get key with
  | some (.int32 v) => .ok v
  | some _ => .error (.fail "unexpected type")
  | none => .error (.fail "missing field")

/-- `Document::get_object_id`. -/
def BDoc.getObjectId (d : BDoc) (key : String) : Except DErr (List Nat) :=
  match d.get key with
  | some (.objectId oid) => .ok oid
  | some _ => .error (.fail "unexpected type")
  | none => .error (.fail "missing field")

/-- `Document::get_bool`. -/
def BDoc.getBool (d : BDoc) (key : String) : Except DErr Bool :=
  match d.get key with
  | some (.boolean b) => .ok b
  | some _ => .error (.fail "unexpected type")
  | none => .error (.fail "missing field")

/-- `i32 as u32` (two's-complement reinterpretation). -/
def i32AsU32 (v : Int) : Nat := (v % 2 ^ 32).toNat

mutual

/-- `Bson::try_from_extended_document` — the `Document`-input decode path,
with its branches in source order.  The `$numberLong` branch reads the
document's `"$numberInt"` key, and the `$regularExpression` branch checks
the body against the field names `"$pattern"`/`"$options"`, exactly as the
source does.  `panic!("www")`/`panic!("ww")` in the `$code` branch are
`DErr.fatal`. -/
def tryFromExtendedDocument (doc : BDoc) : Except DErr Bson :=
  let keys := doc.keys
  if keys.contains "$oid" then
    (doc.getStr "$oid").bind (fun s => (oidWithString s).map Bson.objectId)
  else if keys.contains "$symbol" then
    (doc.getStr "$symbol").map Bson.symbol
  else if keys.contains "$numberInt" then
    (doc.getStr "$numberInt").bind (fun istr =>
      match parseI32 istr with
      | some i => .ok (.int32 i)
      | none => .error (.fail "expected i32"))
  else if keys.contains "$numberLong" then
    (doc.getStr "$numberInt").bind (fun istr =>
      match parseI64 istr with
      | some i => .ok (.int64 i)
      | none => .error (.fail "expected i64"))
  else if keys.contains "$numberDouble" then
    (doc.getStr "$numberDouble").bind (fun s =>
      if s = "Infinity" then .ok (.double (.inf false))
      else if s = "-Infinity" then .ok (.double (.inf true))
      else if s = "NaN" then .ok (.double (.nan false))
      else
        match parseF64Chars s.data with
        | some f => .ok (.double f)
        | none => .error (.fail "expected double"))
  else if keys.contains "$code" then
    (doc.getStr "$code").bind (fun code =>
      match doc.get "$scope" with
      | some (.document scope) =>
        if doc.size > 2 then .error (.fatal "www")
        else .ok (.javaScriptCodeWithScope code scope)
      | some _ => .error (.fail "$scope should be a document")
      | none =>
        if doc.size > 1 then .error (.fatal "ww")
        else .ok (.javaScriptCode code))
  else if keys.contains "$timestamp" then
    (doc.getDocument "$timestamp").bind (fun ts =>
      (ts.getI32 "t").bind (fun t =>
        (ts.getI32 "i").map (fun i => Bson.timestamp (i32AsU32 t) (i32AsU32 i))))
  else if keys.contains "$regularExpression" then
    match keys.find? (fun key => key ≠ "$regularExpression") with
    | some _ => .error (.fail "unknown field")
    | none =>
      (doc.getDocument "$regularExpression").bind (fun regexDoc =>
        (regexDoc.getStr "pattern").bind (fun pattern =>
          (regexDoc.getStr "options").bind (fun opts =>
            match regexDoc.keys.find? (fun key => key ≠ "$pattern" ∧ key ≠ "$options") with
            | some _ => .error (.fail "unknown field")
            | none => .ok (.regularExpression pattern (sortChars opts)))))
  else if keys.contains "$dbPointer" then
    (doc.getDocument "$dbPointer").bind (fun dbp =>
      (dbp.getStr "$ref").bind (fun ns =>
        (dbp.getObjectId "$id").map (fun oid => Bson.dbPointer ns oid)))
  else if keys.contains "$date" then
    match doc.get "$date" with
    | some (.int64 date) =>
      .ok (.dateTime (msToSecsMillis date).1 ((msToSecsMillis date).2.toNat * 1000000))
    | some (.string s) =>
      match parseRfc3339 s with
      | some (secs, nanos) => .ok (.dateTime secs nanos)
      | none => .error (.fail "rfc3339 formatted utc datetime")
    | some _ => .error (.fail "i64 containing a datetime or an rfc3339 string")
    | none => .error (.fail "missing field")
  else if keys.contains "$minKey" then
    match doc.get "$minKey" with
    | some (.int32 1) => .ok .minKey
    | some (.int64 1) => .ok .minKey
    | some _ => .error (.fail "value of $minKey should always be 1")
    | none => .error (.fail "missing field")
  else if keys.contains "$maxKey" then
    match doc.get "$maxKey" with
    | some (.int32 1) => .ok .maxKey
    | some (.int64 1) => .ok .maxKey
    | some _ => .error (.fail "value of $maxKey should always be 1")
    | none => .error (.fail "missing field")
  else if keys.contains "$undefined" then
    (doc.getBool "$undefined").bind (fun b =>
      if b then .ok .undefined
      else .error (.fail "$undefined should always be true"))
  else
    (tfedFields doc).map Bson.document

/-- The fallback of `try_from_extended_document`: each field whose value is
a document is recursively decoded; other values pass through. -/
def tfedFields : (d : BDoc) → Except DErr BDoc
  | .nil => .ok .nil
  | .cons k v tl =>
    match v with
    | .document inner =>
      match tryFromExtendedDocument inner, tfedFields tl with
      | .ok bv, .ok rest => .ok (.cons k bv rest)
      | .error e, _ => .error e
      | _, .error e => .error e
    | other =>
      match tfedFields tl with
      | .ok rest => .ok (.cons k other rest)
      | .error e => .error e

end

/-! ## The streaming binary decoder (`src/de/raw.rs`)

The byte source is a list of bytes; the scalar readers of `de/mod.rs` are
external primitives modelled from the spec (fixed-width little-endian
readers, NUL-terminated and length-prefixed string readers; string decoding
is modelled on the ASCII subset of UTF-8).  The consumed-byte counter of
`CountReader` is recovered from list lengths.  `panic!`, `todo!` and
`unwrap` are `DErr.fatal`. -/

/-- The wire type-tag registry (`spec.rs`, external; table from the spec).
-/
inductive ElementType where
  | double
  | string
  | embeddedDocument
  | array
  | binary
  | undefined
  | objectId
  | boolean
  | dateTime
  | null
  | regularExpression
  | dbPointer
  | javaScriptCode
  | symbol
  | javaScriptCodeWithScope
  | int32
  | timestamp
  | int64
  | decimal128
  | maxKey
  | minKey
  deriving DecidableEq, Repr

/-- `ElementType::from(u8)`: the tag table; unknown bytes give `none`. -/
def elementTypeFromTag (tag : Nat) : Option ElementType :=
  if tag = 0x01 then some .double
  else if tag = 0x02 then some .string
  else if tag = 0x03 then some .embeddedDocument
  else if tag = 0x04 then some .array
  else if tag = 0x05 then some .binary
  else if tag = 0x06 then some .undefined
  else if tag = 0x07 then some .objectId
  else if tag = 0x08 then some .boolean
  else if tag = 0x09 then some .dateTime
  else if tag = 0x0A then some .null
  else if tag = 0x0B then some .regularExpression
  else if tag = 0x0C then some .dbPointer
  else if tag = 0x0D then some .javaScriptCode
  else if tag = 0x0E then some .symbol
  else if tag = 0x0F then some .javaScriptCodeWithScope
  else if tag = 0x10 then some .int32
  else if tag = 0x11 then some .timestamp
  else if tag = 0x12 then some .int64
  else if tag = 0x13 then some .decimal128
  else if tag = 0xFF then some .minKey
  else if tag = 0x7F then some .maxKey
  else none

/-- `u32 as i32` (two's-complement reinterpretation). -/
def u32AsI32 (n : Nat) : Int :=
  if n < 2 ^ 31 then Int.ofNat n else Int.ofNat n - 2 ^ 32

/-- Modelled from the spec: `read_u8`. -/
def readU8 : List Nat → Except DErr (Nat × List Nat)
  | [] => .error (.fail "unexpected end of input")
  | b :: rest => .ok (b, rest)

/-- Take exactly `n` bytes. -/
def takeBytes (n : Nat) (bytes : List Nat) : Except DErr (List Nat × List Nat) :=
  if bytes.length < n then .error (.fail "unexpected end of input")
  else .ok (bytes.take n, bytes.drop n)

/-- Little-endian value of a byte list (first byte least significant). -/
def leValue (bs : List Nat) : Nat := bs.foldr (fun b acc => acc * 256 + b) 0

/-- Modelled from the spec: `read_i32` (4 bytes, little endian, two's
complement). -/
def readI32LE (bytes : List Nat) : Except DErr (Int × List Nat) :=
  (takeBytes 4 bytes).map (fun p => (u32AsI32 (leValue p.1), p.2))

/-- Modelled from the spec: `read_i64`. -/
def readI64LE (bytes : List Nat) : Except DErr (Int × List Nat) :=
  (takeBytes 8 bytes).map (fun p => (u64AsI64 (leValue p.1), p.2))

/-- NUL-terminated byte run decoded as ASCII characters. -/
def readCStrAux : List Nat → Except DErr (List Char × List Nat)
  | [] => .error (.fail "unexpected end of input")
  | b :: rest =>
    if b = 0 then .ok ([], rest)
    else if b < 128 then
      (readCStrAux rest).map (fun p => (Char.ofNat b :: p.1, p.2))
    else .error (.fail "invalid utf-8")

/-- Modelled from the spec: `read_cstring`. -/
def readCStr (bytes : List Nat) : Except DErr (String × List Nat) :=
  (readCStrAux bytes).map (fun p => (String.mk p.1, p.2))

/-- ASCII decode of a fixed byte run. -/
def asciiChars : List Nat → Except DErr (List Char)
  | [] => .ok []
  | b :: rest =>
    if b < 128 then (asciiChars rest).map (Char.ofNat b :: ·)
    else .error (.fail "invalid utf-8")

/-- Modelled from the spec: `read_string` — `i32` length counting the
trailing NUL, the text bytes, then the NUL. -/
def readStr (bytes : List Nat) : Except DErr (String × List Nat) :=
  (readI32LE bytes).bind (fun p =>
    if p.1 ≤ 0 then .error (.fail "invalid string length")
    else
      (takeBytes p.1.toNat p.2).bind (fun q =>
        match q.1.getLast? with
        | some 0 =>
          (asciiChars (q.1.take (p.1.toNat - 1))).map (fun cs => (String.mk cs, q.2))
        | _ => .error (.fail "string not null terminated")))

mutual

/-- `Deserializer::deserialize_any` driving a generic value-building
visitor, dispatching on the current element type.  Synthetic map shapes
(object id, undefined, non-generic binary) are returned as the documents
the visitor would materialize.  The commented-out arms and `_ => todo!()`
of the source are `DErr.fatal`, as is the source's empty (non-compiling)
`DateTime` arm and the binary arm's `try_into().unwrap()` on a negative
length.  The `Double` arm's IEEE-754 payload decoding lives in the external
`read_f64` primitive and is outside this embedding. -/
def deserializeAny : Nat → ElementType → List Nat → Except DErr (Bson × List Nat)
  | 0, _, _ => .error (.fail "recursion fuel exhausted")
  | _ + 1, .int32, bytes => (readI32LE bytes).map (fun p => (.int32 p.1, p.2))
  | _ + 1, .int64, bytes => (readI64LE bytes).map (fun p => (.int64 p.1, p.2))
  | _ + 1, .double, _ => .error (.fatal "read_f64 payload not modelled")
  | _ + 1, .string, bytes => (readStr bytes).map (fun p => (.string p.1, p.2))
  | _ + 1, .boolean, bytes => (readU8 bytes).map (fun p => (.boolean (p.1 == 1), p.2))
  | _ + 1, .null, bytes => .ok (.null, bytes)
  | _ + 1, .objectId, bytes =>
    (takeBytes 12 bytes).map (fun p =>
      (.document (.cons "$oid" (.string (String.mk (hexEncode p.1))) .nil), p.2))
  | fuel + 1, .embeddedDocument, bytes =>
    (readI32LE bytes).bind (fun p =>
      (docFields fuel (p.1 - 4) p.2).map (fun q => (Bson.document q.1, q.2)))
  | fuel + 1, .array, bytes =>
    (readI32LE bytes).bind (fun p =>
      (arrFields fuel (p.1 - 4) p.2).map (fun q => (Bson.array q.1, q.2)))
  | _ + 1, .binary, bytes =>
    (readI32LE bytes).bind (fun p =>
      (readU8 p.2).bind (fun q =>
        if p.1 < 0 then .error (.fatal "length try_into unwrap")
        else
          (takeBytes p.1.toNat q.2).map (fun r =>
            if q.1 = 0 then (Bson.binary q.1 r.1, r.2)
            else
              (Bson.document (.cons "$binary"
                (.document (.cons "subType" (.string (String.mk (hexEncode [q.1])))
                  (.cons "base64" (.string (String.mk (b64Encode r.1))) .nil))) .nil),
                r.2))))
  | _ + 1, .undefined, bytes =>
    .ok (.document (.cons "$undefined" (.int32 1) .nil), bytes)
  | _ + 1, .dateTime, _ => .error (.fatal "empty match arm")
  | _ + 1, _, _ => .error (.fatal "todo")

/-- `MapAccess::next_key_seed` / `next_value_seed` looping over the fields
of an embedded document: tag, length bookkeeping, NUL handling and the two
`panic!("...")` length checks, followed by the field name and the payload.
-/
def docFields : Nat → Int → List Nat → Except DErr (BDoc × List Nat)
  | 0, _, _ => .error (.fail "recursion fuel exhausted")
  | fuel + 1, lengthRemaining, bytes =>
    (readU8 bytes).bind (fun tg =>
      let lr1 := lengthRemaining - 1
      if tg.1 = 0 then
        if lr1 ≠ 0 then .error (.fatal "got null byte but still have length remaining")
        else .ok (.nil, tg.2)
      else
        match elementTypeFromTag tg.1 with
        | none => .error (.fatal "unwrap on unrecognized element type")
        | some ty =>
          (readCStr tg.2).bind (fun key =>
            let lr2 := lr1 - Int.ofNat (tg.2.length - key.2.length)
            if lr2 ≤ 0 then .error (.fatal "ran out of bytes")
            else
              (deserializeAny fuel ty key.2).bind (fun v =>
                let lr3 := lr2 - Int.ofNat (key.2.length - v.2.length)
                if lr3 ≤ 0 then .error (.fatal "ran out of bytes")
                else
                  (docFields fuel lr3 v.2).map (fun rest =>
                    (BDoc.cons key.1 v.1 rest.1, rest.2)))))

/-- `ArrayAccess::next_element_seed` looping over array elements: the same
length bookkeeping with the (ignored) positional index name. -/
def arrFields : Nat → Int → List Nat → Except DErr (BArr × List Nat)
  | 0, _, _ => .error (.fail "recursion fuel exhausted")
  | fuel + 1, lengthRemaining, bytes =>
    (readU8 bytes).bind (fun tg =>
      let lr1 := lengthRemaining - 1
      if tg.1 = 0 then
        if lr1 ≠ 0 then .error (.fatal "got null byte but still have length remaining")
        else .ok (.nil, tg.2)
      else
        match elementTypeFromTag tg.1 with
        | none => .error (.fatal "unwrap on unrecognized element type")
        | some ty =>
          (readCStr tg.2).bind (fun idx =>
            let lr2 := lr1 - Int.ofNat (tg.2.length - idx.2.length)
            if lr2 ≤ 0 then .error (.fatal "ran out of bytes")
            else
              (deserializeAny fuel ty idx.2).bind (fun v =>
                let lr3 := lr2 - Int.ofNat (idx.2.length - v.2.length)
                if lr3 ≤ 0 then .error (.fatal "ran out of bytes")
                else
                  (arrFields fuel lr3 v.2).map (fun rest =>
                    (BArr.cons v.1 rest.1, rest.2)))))

end

/-! ## The canonical round-trip domain (claim C1's hypotheses)

`goodBson` carries the claim's stated exclusions (no `Decimal128`, regex
options already sorted, datetimes at millisecond precision) together with
the well-formedness the payloads have in Rust (`u32`/`i32`/`i64` ranges,
bytes below 256, 12-byte object ids, canonical float fractions) and the
further exclusions the counterexample forces: no NaN doubles, and no
document with a duplicate key or a key from the fixed wrapper-dispatch
list (`serde_json` objects are maps, and wrapper-looking documents re-enter
the dispatch on decode). -/

/-- The fifteen wrapper keys, in the decoder's dispatch order. -/
def wrapperKeys : List String :=
  ["$oid", "$symbol", "$regularExpression", "$numberInt", "$numberLong",
   "$numberDouble", "$binary", "$code", "$timestamp", "$date", "$minKey",
   "$maxKey", "$dbPointer", "$numberDecimal", "$undefined"]

/-- A float the canonical encoder renders and re-reads exactly: not NaN, and
a canonical finite mantissa (digits below ten, no trailing zero). -/
def goodDouble : F64 → Bool
  | .nan _ => false
  | .inf _ => true
  | .finite _ _ frac =>
    frac.all (fun d => decide (d < 10)) && (stripTrailingZeros frac == frac)

/-- Pairwise-distinct keys. -/
def keysUniq : List String → Bool
  | [] => true
  | k :: ks => !ks.contains k && keysUniq ks

mutual

/-- The domain of the canonical round trip. -/
def goodBson : Bson → Bool
  | .double f => goodDouble f
  | .string _ => true
  | .array a => goodArr a
  | .document d => goodDoc d
  | .boolean _ => true
  | .null => true
  | .regularExpression _ opts => isSortedCh opts.data
  | .javaScriptCode _ => true
  | .javaScriptCodeWithScope _ scope => goodDoc scope
  | .int32 v => inI32Range v
  | .int64 v => inI64Range v
  | .timestamp t i => decide (t < 2 ^ 32) && decide (i < 2 ^ 32)
  | .binary st bytes => decide (st < 256) && bytes.all (fun b => decide (b < 256))
  | .objectId oid => decide (oid.length = 12) && oid.all (fun b => decide (b < 256))
  | .dateTime secs nanos =>
    decide (nanos < 1000000000) && decide (nanos % 1000000 = 0) &&
      inI64Range (timestampMillis secs nanos)
  | .symbol _ => true
  | .decimal128 _ => false
  | .undefined => true
  | .maxKey => true
  | .minKey => true
  | .dbPointer _ oid => decide (oid.length = 12) && oid.all (fun b => decide (b < 256))

/-- Elementwise goodness. -/
def goodArr : BArr → Bool
  | .nil => true
  | .cons hd tl => goodBson hd && goodArr tl

/-- Fieldwise goodness plus key discipline: no wrapper key, no duplicate.
-/
def goodDoc : BDoc → Bool
  | .nil => true
  | .cons k v tl =>
    !wrapperKeys.contains k && !(BDoc.keys tl).contains k && goodBson v && goodDoc tl

end

/-- Keys of a JSON object, in order. -/
def JObj.keys : JObj → List String
  | .nil => []
  | .cons k _ tl => k :: JObj.keys tl

/-! ## Encoder totality away from `Decimal128` (for claim C9) -/

mutual

/-- No `Decimal128` occurs in the value. -/
def noDec : Bson → Bool
  | .decimal128 _ => false
  | .array a => noDecArr a
  | .document d => noDecDoc d
  | .javaScriptCodeWithScope _ scope => noDecDoc scope
  | _ => true

def noDecArr : BArr → Bool
  | .nil => true
  | .cons hd tl => noDec hd && noDecArr tl

def noDecDoc : BDoc → Bool
  | .nil => true
  | .cons _ v tl => noDec v && noDecDoc tl

end

mutual

theorem relaxedTotal : (v : Bson) → noDec v = true → ∃ j, intoRelaxedExtjson v = .ok j
  | .double f, _ => by
    rw [intoRelaxedExtjson]
    split
    · exact ⟨_, rfl⟩
    · split
      · exact ⟨_, rfl⟩
      · exact ⟨_, rfl⟩
  | .string v, _ => ⟨_, rfl⟩
  | .array a, h => by
    obtain ⟨ja, hja⟩ := relaxedArrTotal a h
    exact ⟨.arr ja, by rw [intoRelaxedExtjson, hja]; rfl⟩
  | .document d, h => by
    obtain ⟨jd, hjd⟩ := relaxedDocTotal d h
    exact ⟨.obj jd, by rw [intoRelaxedExtjson, hjd]; rfl⟩
  | .boolean b, _ => ⟨_, rfl⟩
  | .null, _ => ⟨_, rfl⟩
  | .regularExpression p o, _ => ⟨_, rfl⟩
  | .javaScriptCode c, _ => ⟨_, rfl⟩
  | .javaScriptCodeWithScope c scope, h => by
    obtain ⟨jd, hjd⟩ := relaxedDocTotal scope h
    exact ⟨_, by rw [intoRelaxedExtjson, hjd]; rfl⟩
  | .int32 v, _ => ⟨_, rfl⟩
  | .int64 v, _ => ⟨_, rfl⟩
  | .timestamp t i, _ => ⟨_, rfl⟩
  | .binary st bytes, _ => ⟨_, rfl⟩
  | .objectId oid, _ => ⟨_, rfl⟩
  | .dateTime secs nanos, _ => by
    rw [intoRelaxedExtjson]
    split
    · exact ⟨_, rfl⟩
    · exact ⟨_, rfl⟩
  | .symbol v, _ => ⟨_, rfl⟩
  | .decimal128 x, h => by
    exact absurd h (by rw [noDec]; simp)
  | .undefined, _ => ⟨_, rfl⟩
  | .maxKey, _ => ⟨_, rfl⟩
  | .minKey, _ => ⟨_, rfl⟩
  | .dbPointer ns oid, _ => ⟨_, rfl⟩

theorem relaxedArrTotal : (a : BArr) → noDecArr a = true → ∃ ja, relaxedArr a = .ok ja
  | .nil, _ => ⟨_, rfl⟩
  | .cons hd tl, h => by
    rw [noDecArr, Bool.and_eq_true_iff] at h
    obtain ⟨j, hj⟩ := relaxedTotal hd h.1
    obtain ⟨ja, hja⟩ := relaxedArrTotal tl h.2
    exact ⟨.cons j ja, by rw [relaxedArr, hj, hja]⟩

theorem relaxedDocTotal : (d : BDoc) → noDecDoc d = true → ∃ jd, relaxedObj d = .ok jd
  | .nil, _ => ⟨_, rfl⟩
  | .cons k v tl, h => by
    rw [noDecDoc, Bool.and_eq_true_iff] at h
    obtain ⟨j, hj⟩ := relaxedTotal v h.1
    obtain ⟨jd, hjd⟩ := relaxedDocTotal tl h.2
    exact ⟨.cons k j jd, by rw [relaxedObj, hj, hjd]⟩

end

mutual

theorem canonicalTotal : (v : Bson) → noDec v = true → ∃ j, intoCanonicalExtjson v = .ok j
  | .int32 v, _ => ⟨_, rfl⟩
  | .int64 v, _ => ⟨_, rfl⟩
  | .double f, h => by
    rw [intoCanonicalExtjson]
    split
    · exact ⟨_, rfl⟩
    · split
      · exact ⟨_, rfl⟩
      · exact relaxedTotal (.double f) h
  | .dateTime secs nanos, _ => ⟨_, rfl⟩
  | .array a, h => by
    obtain ⟨ja, hja⟩ := canonicalArrTotal a h
    exact ⟨.arr ja, by rw [intoCanonicalExtjson, hja]; rfl⟩
  | .document d, h => by
    obtain ⟨jd, hjd⟩ := canonicalDocTotal d h
    exact ⟨.obj jd, by rw [intoCanonicalExtjson, hjd]; rfl⟩
  | .javaScriptCodeWithScope c scope, h => by
    obtain ⟨jd, hjd⟩ := canonicalDocTotal scope h
    exact ⟨_, by rw [intoCanonicalExtjson, hjd]; rfl⟩
  | .string v, h => relaxedTotal (.string v) h
  | .boolean b, h => relaxedTotal (.boolean b) h
  | .null, h => relaxedTotal .null h
  | .regularExpression p o, h => relaxedTotal (.regularExpression p o) h
  | .javaScriptCode c, h => relaxedTotal (.javaScriptCode c) h
  | .timestamp t i, h => relaxedTotal (.timestamp t i) h
  | .binary st bytes, h => relaxedTotal (.binary st bytes) h
  | .objectId oid, h => relaxedTotal (.objectId oid) h
  | .symbol v, h => relaxedTotal (.symbol v) h
  | .decimal128 x, h => by
    exact absurd h (by rw [noDec]; simp)
  | .undefined, h => relaxedTotal .undefined h
  | .maxKey, h => relaxedTotal .maxKey h
  | .minKey, h => relaxedTotal .minKey h
  | .dbPointer ns oid, h => relaxedTotal (.dbPointer ns oid) h

theorem canonicalArrTotal : (a : BArr) → noDecArr a = true → ∃ ja, canonicalArr a = .ok ja
  | .nil, _ => ⟨_, rfl⟩
  | .cons hd tl, h => by
    rw [noDecArr, Bool.and_eq_true_iff] at h
    obtain ⟨j, hj⟩ := canonicalTotal hd h.1
    obtain ⟨ja, hja⟩ := canonicalArrTotal tl h.2
    exact ⟨.cons j ja, by rw [canonicalArr, hj, hja]⟩

theorem canonicalDocTotal : (d : BDoc) → noDecDoc d = true → ∃ jd, canonicalObj d = .ok jd
  | .nil, _ => ⟨_, rfl⟩
  | .cons k v tl, h => by
    rw [noDecDoc, Bool.and_eq_true_iff] at h
    obtain ⟨j, hj⟩ := canonicalTotal v h.1
    obtain ⟨jd, hjd⟩ := canonicalDocTotal tl h.2
    exact ⟨.cons k j jd, by rw [canonicalObj, hj, hjd]⟩

end

/-! ## Claim theorems -/

/-- Claim C5: for every signed 64-bit millisecond count `d`, the canonical
`$date` decode decomposes `d` into seconds `s` and milliseconds `m` with
`s * 1000 + m = d` and `m` in `[0, 999]` (flooring toward negative
infinity); in particular `-4300` gives `(-5, 700)` and `4300` gives
`(4, 300)`.  `msToSecsMillis` is the decomposition both `$date` decode
paths inline. -/
theorem c5_date_decomposition (d : Int) (h1 : -(2 ^ 63) ≤ d) (h2 : d < 2 ^ 63) :
    (msToSecsMillis d).1 * 1000 + (msToSecsMillis d).2 = d ∧
      0 ≤ (msToSecsMillis d).2 ∧ (msToSecsMillis d).2 ≤ 999 ∧
      msToSecsMillis (-4300) = (-5, 700) ∧ msToSecsMillis 4300 = (4, 300) := by
  obtain ⟨ha, hb, hc⟩ := msToSecsMillis_spec d
  exact ⟨ha, hb, hc, by decide, by decide⟩

/-- Witness for C5 at `d = -4300`. -/
theorem c5_date_decomposition_witness :
    (msToSecsMillis (-4300)).1 * 1000 + (msToSecsMillis (-4300)).2 = -4300 ∧
      0 ≤ (msToSecsMillis (-4300)).2 ∧ (msToSecsMillis (-4300)).2 ≤ 999 ∧
      msToSecsMillis (-4300) = (-5, 700) ∧ msToSecsMillis 4300 = (4, 300) :=
  c5_date_decomposition (-4300) (by norm_num) (by norm_num)

/-- Claim C8: packing a `Timestamp` puts the seconds in the high 32 bits and
the increment in the low 32 bits of one 64-bit integer
(`to_le_i64 = ((time as u64) << 32 | increment as u64) as i64`), and
unpacking inverts it exactly. -/
theorem c8_timestamp_packing (t i : Nat) (ht : t < 2 ^ 32) (hi : i < 2 ^ 32) :
    Timestamp.fromLeI64 (Timestamp.toLeI64 ⟨t, i⟩) = ⟨t, i⟩ ∧
      Timestamp.toLeI64 ⟨t, i⟩ = u64AsI64 ((t <<< 32) ||| i) :=
  ⟨timestamp_roundtrip t i ht hi, rfl⟩

/-- Witness for C8 at `time = 3`, `increment = 7`. -/
theorem c8_timestamp_packing_witness :
    Timestamp.fromLeI64 (Timestamp.toLeI64 ⟨3, 7⟩) = ⟨3, 7⟩ ∧
      Timestamp.toLeI64 ⟨3, 7⟩ = u64AsI64 ((3 <<< 32) ||| 7) :=
  c8_timestamp_packing 3 7 (by norm_num) (by norm_num)

/-- Claim C10 (implicit): the streaming decoder reads a boolean field's
payload byte `b` as `b == 1` — `true` exactly for `0x01`, `false` for every
other byte value, and no payload byte is ever rejected. -/
theorem c10_boolean_payload (fuel b : Nat) (rest : List Nat) (hb : b < 256) :
    deserializeAny (fuel + 1) .boolean (b :: rest) =
      .ok (.boolean (b == 1), rest) ∧ ((b == 1) = true ↔ b = 1) := by
  exact ⟨rfl, by simp⟩

/-- Witness for C10 at payload byte `0x02`: decoded as `false`, not
rejected. -/
theorem c10_boolean_payload_witness :
    deserializeAny 1 .boolean [2] = .ok (.boolean (2 == 1), []) ∧
      ((2 == 1) = true ↔ 2 = 1) :=
  c10_boolean_payload 0 2 [] (by norm_num)

/-- Claim C3 (code bug): the framing checks of the embedded-document loop
are process-fatal, not `Err` returns.  A document of declared length 6
whose body is a NUL terminator with a byte left over hits
`panic!("got null byte but still have length {} remaining")`, and one of
declared length 4 whose body begins an int32 field hits
`panic!("ran out of bytes!")` — modelled as the `DErr.fatal` outcome,
where the claim (and the spec) require `DErr.fail`. -/
theorem c3_framing_panics :
    deserializeAny 10 .embeddedDocument [6, 0, 0, 0, 0, 0] =
      .error (.fatal "got null byte but still have length remaining") ∧
    deserializeAny 10 .embeddedDocument [4, 0, 0, 0, 0x10, 97, 0, 1, 0, 0, 0] =
      .error (.fatal "ran out of bytes") := by
  exact ⟨rfl, rfl⟩

/-- Claim C2 (code bug): on the document `{"$numberLong": "5"}` the
`$numberLong` branch of `try_from_extended_document` fetches the
`"$numberInt"` key, so the accessor fails on a missing field and the call
returns an error instead of `Ok(Bson::Int64(5))`. -/
theorem c2_numberlong_reads_numberint :
    tryFromExtendedDocument (.cons "$numberLong" (.string "5") .nil) =
      .error (.fail "missing field") := by
  rw [tryFromExtendedDocument]
  simp [BDoc.keys, BDoc.getStr, BDoc.get, Except.bind]

/-- Claim C9 (counterexample): with the `decimal128` feature absent,
encoding `Bson::Decimal128` to relaxed extended JSON takes the `panic!`
arm (the `Except.error` outcome of the encoder models exactly that panic),
contradicting the claim's "does not panic". -/
theorem c9_decimal128_panics :
    intoRelaxedExtjson (.decimal128 0) =
      .error "Decimal128 extended JSON not implemented yet. Use the decimal128 feature to enable experimental support for it." := by
  rfl

/-- Claim C9 (amended): with the `decimal128` feature absent, encoding a
`Bson::Decimal128` to extended JSON fails loudly via the documented panic
(never a silent mis-encode), and for every value free of `Decimal128` both
the relaxed and the canonical encoder are total. -/
theorem c9_encoders_total_except_decimal128 (v : Bson) (d : Nat) (h : noDec v = true) :
    (∃ j, intoRelaxedExtjson v = .ok j) ∧ (∃ j, intoCanonicalExtjson v = .ok j) ∧
      intoRelaxedExtjson (.decimal128 d) =
        .error "Decimal128 extended JSON not implemented yet. Use the decimal128 feature to enable experimental support for it." :=
  ⟨relaxedTotal v h, canonicalTotal v h, rfl⟩

/-- Witness for C9's amended theorem at `v = {"a": Int32 5}`, `d = 0`. -/
theorem c9_encoders_total_witness :
    (∃ j, intoRelaxedExtjson (.document (.cons "a" (.int32 5) .nil)) = .ok j) ∧
      (∃ j, intoCanonicalExtjson (.document (.cons "a" (.int32 5) .nil)) = .ok j) ∧
      intoRelaxedExtjson (.decimal128 0) =
        .error "Decimal128 extended JSON not implemented yet. Use the decimal128 feature to enable experimental support for it." :=
  c9_encoders_total_except_decimal128 (.document (.cons "a" (.int32 5) .nil)) 0 rfl

/-! ## Claim C7: plain JSON number promotion -/

/-- Stated from the amended claim's words: an integer in the signed 32-bit
range becomes `Int32`; any other integer representable as `i64` becomes
`Int64`; an integer representable only as `u64` becomes `Int64` through the
wrapping `as i64` cast of `From<u64> for Bson`; a non-integer number
becomes `Double`. -/
def promoteNumber : JNumber → Bson
  | .uint n =>
    if inI32Range (Int.ofNat n) then .int32 (Int.ofNat n)
    else if n < 2 ^ 63 then .int64 (Int.ofNat n)
    else .int64 (u64AsI64 n)
  | .nint v => if inI32Range v then .int32 v else .int64 v
  | .float f => .double f

/-- Claim C7 (counterexample): the JSON integer `2^63`, which does not fit
`i64`, decodes as the wrapped `Int64(-2^63)` — not as a `Double` as the
claim states. -/
theorem c7_u64_wraps_to_int64 :
    tryFromValue (.num (.uint 9223372036854775808)) =
      .ok (.int64 (-9223372036854775808)) := by
  rfl

/-- Claim C7 (amended): every plain JSON number decodes per
`promoteNumber`: Int32 when in the 32-bit signed range, Int64 when it fits
a 64-bit signed integer, Int64 of the wrapped `as i64` cast for integers
only `u64` can hold, and Double only for non-integer numbers. -/
theorem c7_number_promotion (x : JNumber) :
    tryFromValue (.num x) = .ok (promoteNumber x) := by
  cases x with
  | uint n =>
    show decodeJsonNumber (.uint n) = .ok (promoteNumber (.uint n))
    by_cases hn : n < 9223372036854775808
    · by_cases h32 : inI32Range (n : Int) = true
      · simp [decodeJsonNumber, numAsI64, promoteNumber, hn, h32]
      · simp [decodeJsonNumber, numAsI64, promoteNumber, hn, h32]
    · have h32 : inI32Range (n : Int) = false := by
        rw [inI32Range]
        simp only [decide_eq_false_iff_not, not_and, not_lt]
        intro _
        omega
      simp [decodeJsonNumber, numAsI64, numAsU64, promoteNumber, hn, h32]
  | nint v =>
    show decodeJsonNumber (.nint v) = .ok (promoteNumber (.nint v))
    by_cases h32 : inI32Range v = true
    · simp [decodeJsonNumber, numAsI64, promoteNumber, h32]
    · simp [decodeJsonNumber, numAsI64, promoteNumber, h32]
  | float f => rfl

/-- Claim C6: every cited decode path producing a `RegularExpression` sorts
the option characters before constructing the value, and the cited encode
path sorts them before emitting; decoding `{"pattern": p, "options": "mi"}`
and `{"pattern": p, "options": "im"}` yields the same value with options
`"im"`, and the canonicalization is idempotent (sorting a sorted string is
a no-op). -/
theorem c6_regex_options_sorted (p o : String) :
    tryFromValue (.obj (.cons "$regularExpression"
        (.obj (.cons "pattern" (.str p) (.cons "options" (.str o) .nil))) .nil)) =
      .ok (.regularExpression p (sortChars o)) ∧
    isSortedCh (sortChars o).data = true ∧
    intoRelaxedExtjson (.regularExpression p o) =
      .ok (.obj (.cons "$regularExpression"
        (.obj (.cons "pattern" (.str p) (.cons "options" (.str (sortChars o)) .nil)))
        .nil)) ∧
    sortChars (sortChars o) = sortChars o ∧
    tryFromValue (.obj (.cons "$regularExpression"
        (.obj (.cons "pattern" (.str p) (.cons "options" (.str "mi") .nil))) .nil)) =
      tryFromValue (.obj (.cons "$regularExpression"
        (.obj (.cons "pattern" (.str p) (.cons "options" (.str "im") .nil))) .nil)) ∧
    tryFromValue (.obj (.cons "$regularExpression"
        (.obj (.cons "pattern" (.str p) (.cons "options" (.str "im") .nil))) .nil)) =
      .ok (.regularExpression p "im") := by
  refine ⟨rfl, ?_, rfl, ?_, ?_, ?_⟩
  · rw [sortChars]
    exact insertionSortCh_sorted o.data
  · rw [sortChars, sortChars]
    exact congrArg String.mk (insertionSortCh_of_sorted _ (insertionSortCh_sorted o.data))
  · rfl
  · rfl

/-- The ordered dispatch table of the extended-JSON decoder's object branch:
the handler the source's `contains_key` chain selects for a given wrapper
key. -/
def wrapperHandler (k : String) (o : JObj) : Except DErr Bson :=
  if k = "$oid" then decodeOidObj o
  else if k = "$symbol" then decodeSymbolObj o
  else if k = "$regularExpression" then decodeRegexObj o
  else if k = "$numberInt" then decodeNumberIntObj o
  else if k = "$numberLong" then decodeNumberLongObj o
  else if k = "$numberDouble" then decodeNumberDoubleObj o
  else if k = "$binary" then decodeBinaryObj o
  else if k = "$code" then decodeCodeFromObj o
  else if k = "$timestamp" then decodeTimestampObj o
  else if k = "$date" then decodeDateObj o
  else if k = "$minKey" then decodeMinKeyObj o
  else if k = "$maxKey" then decodeMaxKeyObj o
  else if k = "$dbPointer" then decodeDbPointerObj o
  else if k = "$numberDecimal" then decodeNumberDecimalObj o
  else if k = "$undefined" then decodeUndefinedObj o
  else .error (.fail "not a wrapper key")

/-- Claim C4: the extended-JSON decoder recognizes type wrappers by a fixed
first-match-wins dispatch over the object's keys in the order `$oid`,
`$symbol`, `$regularExpression`, `$numberInt`, `$numberLong`,
`$numberDouble`, `$binary`, `$code`, `$timestamp`, `$date`, `$minKey`,
`$maxKey`, `$dbPointer`, `$numberDecimal`, `$undefined` (so an object
holding keys of two different wrappers resolves to the earliest in the
order), and an object matching none decodes as a plain embedded document
with its fields recursively decoded (`Document::from_ext_json`, modelled
from the spec). -/
theorem c4_dispatch_order (o : JObj) :
    tryFromValue (.obj o) =
      (match wrapperKeys.find? (fun k => o.containsKey k) with
      | some k => wrapperHandler k o
      | none => (docFromExtJson o).map Bson.document) := by
  simp only [tryFromValue]
  by_cases h1 : JObj.containsKey o "$oid" = true
  · simp [wrapperKeys, List.find?, wrapperHandler, h1]
  · by_cases h2 : JObj.containsKey o "$symbol" = true
    · simp [wrapperKeys, List.find?, wrapperHandler, h1, h2]
    · by_cases h3 : JObj.containsKey o "$regularExpression" = true
      · simp [wrapperKeys, List.find?, wrapperHandler, h1, h2, h3]
      · by_cases h4 : JObj.containsKey o "$numberInt" = true
        · simp [wrapperKeys, List.find?, wrapperHandler, h1, h2, h3, h4]
        · by_cases h5 : JObj.containsKey o "$numberLong" = true
          · simp [wrapperKeys, List.find?, wrapperHandler, h1, h2, h3, h4, h5]
          · by_cases h6 : JObj.containsKey o "$numberDouble" = true
            · simp [wrapperKeys, List.find?, wrapperHandler, h1, h2, h3, h4, h5, h6]
            · by_cases h7 : JObj.containsKey o "$binary" = true
              · simp [wrapperKeys, List.find?, wrapperHandler, h1, h2, h3, h4, h5, h6, h7]
              · by_cases h8 : JObj.containsKey o "$code" = true
                · simp [wrapperKeys, List.find?, wrapperHandler, h1, h2, h3, h4, h5, h6, h7, h8]
                · by_cases h9 : JObj.containsKey o "$timestamp" = true
                  · simp [wrapperKeys, List.find?, wrapperHandler, h1, h2, h3, h4, h5, h6, h7, h8, h9]
                  · by_cases h10 : JObj.containsKey o "$date" = true
                    · simp [wrapperKeys, List.find?, wrapperHandler, h1, h2, h3, h4, h5, h6, h7, h8, h9, h10]
                    · by_cases h11 : JObj.containsKey o "$minKey" = true
                      · simp [wrapperKeys, List.find?, wrapperHandler, h1, h2, h3, h4, h5, h6, h7, h8, h9, h10, h11]
                      · by_cases h12 : JObj.containsKey o "$maxKey" = true
                        · simp [wrapperKeys, List.find?, wrapperHandler, h1, h2, h3, h4, h5, h6, h7, h8, h9, h10, h11, h12]
                        · by_cases h13 : JObj.containsKey o "$dbPointer" = true
                          · simp [wrapperKeys, List.find?, wrapperHandler, h1, h2, h3, h4, h5, h6, h7, h8, h9, h10, h11, h12, h13]
                          · by_cases h14 : JObj.containsKey o "$numberDecimal" = true
                            · simp [wrapperKeys, List.find?, wrapperHandler, h1, h2, h3, h4, h5, h6, h7, h8, h9, h10, h11, h12, h13, h14]
                            · by_cases h15 : JObj.containsKey o "$undefined" = true
                              · simp [wrapperKeys, List.find?, wrapperHandler, h1, h2, h3, h4, h5, h6, h7, h8, h9, h10, h11, h12, h13, h14, h15]
                              · simp [wrapperKeys, List.find?, h1, h2, h3, h4, h5, h6, h7, h8, h9, h10, h11, h12, h13, h14, h15]

/-! ## Helper lemmas for the canonical round trip (claim C1) -/

theorem isDigitCh_ne_I {c : Char} (h : isDigitCh c = true) : c ≠ 'I' := by
  intro he
  subst he
  simp [isDigitCh] at h

theorem isDigitCh_ne_N {c : Char} (h : isDigitCh c = true) : c ≠ 'N' := by
  intro he
  subst he
  simp [isDigitCh] at h

/-- A sign-then-digits rendering never spells one of the special float
literals of the `$numberDouble` decode. -/
theorem signedDigits_ne_literals (neg : Bool) (ip : Nat) (x : List Char) :
    String.mk ((if neg then ['-'] else []) ++ natDecChars ip ++ x) ≠ "Infinity" ∧
    String.mk ((if neg then ['-'] else []) ++ natDecChars ip ++ x) ≠ "-Infinity" ∧
    String.mk ((if neg then ['-'] else []) ++ natDecChars ip ++ x) ≠ "NaN" := by
  obtain ⟨c, rest, hcs, hdig⟩ := natDecChars_shape ip
  have hInf : "Infinity".data = ['I', 'n', 'f', 'i', 'n', 'i', 't', 'y'] := by decide
  have hNInf : "-Infinity".data = ['-', 'I', 'n', 'f', 'i', 'n', 'i', 't', 'y'] := by decide
  have hNaN : "NaN".data = ['N', 'a', 'N'] := by decide
  cases neg with
  | false =>
    rw [if_neg (by simp), List.nil_append, hcs]
    refine ⟨?_, ?_, ?_⟩ <;> intro he
    · have hd : c :: (rest ++ x) = "Infinity".data := congrArg String.data he
      rw [hInf] at hd
      injection hd with h1 _
      exact isDigitCh_ne_I hdig h1
    · have hd : c :: (rest ++ x) = "-Infinity".data := congrArg String.data he
      rw [hNInf] at hd
      injection hd with h1 _
      exact isDigitCh_ne_dash hdig h1
    · have hd : c :: (rest ++ x) = "NaN".data := congrArg String.data he
      rw [hNaN] at hd
      injection hd with h1 _
      exact isDigitCh_ne_N hdig h1
  | true =>
    rw [if_pos rfl, hcs]
    refine ⟨?_, ?_, ?_⟩ <;> intro he
    · have hd : '-' :: (c :: rest ++ x) = "Infinity".data := congrArg String.data he
      rw [hInf] at hd
      injection hd with h1 _
      exact absurd h1 (by decide)
    · have hd : '-' :: (c :: rest ++ x) = "-Infinity".data := congrArg String.data he
      rw [hNInf] at hd
      injection hd with _ h2
      injection h2 with h3 _
      exact isDigitCh_ne_I hdig h3
    · have hd : '-' :: (c :: rest ++ x) = "NaN".data := congrArg String.data he
      rw [hNaN] at hd
      injection hd with h1 _
      exact absurd h1 (by decide)

theorem hexEncode_length (bs : List Nat) : (hexEncode bs).length = 2 * bs.length := by
  induction bs with
  | nil => rfl
  | cons b rest ih =>
    rw [hexEncode]
    simp only [List.length_cons, ih]
    omega

theorem parseI32_intDecChars {v : Int} (h : inI32Range v = true) :
    parseI32 (String.mk (intDecChars v)) = some v := by
  have hd : (String.mk (intDecChars v)).data = intDecChars v := rfl
  rw [parseI32, hd, parseIntChars_intDecChars]
  simp [Option.bind, h]

theorem parseI64_intDecChars {v : Int} (h : inI64Range v = true) :
    parseI64 (String.mk (intDecChars v)) = some v := by
  have hd : (String.mk (intDecChars v)).data = intDecChars v := rfl
  rw [parseI64, hd, parseIntChars_intDecChars]
  simp [Option.bind, h]

theorem containsKey_eq_keys_contains : (o : JObj) → (k : String) →
    o.containsKey k = (JObj.keys o).contains k
  | .nil, _ => rfl
  | .cons k0 v tl, k => by
    rw [JObj.containsKey, JObj.keys, List.contains_cons,
      containsKey_eq_keys_contains tl k]
    by_cases he : k0 = k
    · subst he
      simp
    · have h1 : (k0 == k) = false := by simp [he]
      have h2 : (k == k0) = false := by simp [Ne.symm he]
      rw [h1, h2]

theorem goodDoc_no_wrapper_key : (d : BDoc) → goodDoc d = true → (k : String) →
    wrapperKeys.contains k = true → (BDoc.keys d).contains k = false
  | .nil, _, _, _ => rfl
  | .cons k0 v tl, h, k, hk => by
    rw [goodDoc] at h
    simp only [Bool.and_eq_true_iff, Bool.not_eq_true'] at h
    obtain ⟨⟨⟨hw, _⟩, _⟩, htl⟩ := h
    rw [BDoc.keys, List.contains_cons, goodDoc_no_wrapper_key tl htl k hk,
      Bool.or_false]
    by_cases he : k0 = k
    · subst he
      rw [hk] at hw
      exact absurd hw (by simp)
    · have h2 : (k == k0) = false := by simp [Ne.symm he]
      exact h2

theorem decodeNumberDoubleObj_str {s : String}
    (h1 : s ≠ "Infinity") (h2 : s ≠ "-Infinity") (h3 : s ≠ "NaN")
    {f : F64} (hp : parseF64Chars s.data = some f) :
    decodeNumberDoubleObj (.cons "$numberDouble" (.str s) .nil) = .ok (.double f) := by
  rw [decodeNumberDoubleObj]
  show (Except.ok s).bind _ = _
  rw [Except.bind, if_neg h1, if_neg h2, if_neg h3, hp]

/-- Canonical round trip for a good double. -/
theorem rt_double (f : F64) (h : goodDouble f = true) :
    ∃ j, intoCanonicalExtjson (.double f) = .ok j ∧ tryFromValue j = .ok (.double f) := by
  cases f with
  | nan neg => exact absurd h (by rw [goodDouble]; simp)
  | inf neg =>
    cases neg with
    | false => exact ⟨_, rfl, rfl⟩
    | true => exact ⟨_, rfl, rfl⟩
  | finite neg ip frac =>
    rw [goodDouble, Bool.and_eq_true_iff] at h
    obtain ⟨hall, hcanon⟩ := h
    have hall' : ∀ d ∈ frac, d < 10 := by
      intro d hd
      have := List.all_eq_true.mp hall d hd
      exact of_decide_eq_true this
    have hcanon' : stripTrailingZeros frac = frac := by
      exact eq_of_beq hcanon
    cases frac with
    | cons d ds =>
      have hnorm : isNormalF (.finite neg ip (d :: ds)) = true := by
        rw [isNormalF]
        simp
      have hstr : f64ToChars (.finite neg ip (d :: ds)) ++
          (if fractZeroF (.finite neg ip (d :: ds)) then ['.', '0'] else []) =
          (if neg then ['-'] else []) ++ natDecChars ip ++ '.' :: (d :: ds).map digitCh := by
        rw [f64ToChars, fractZeroF]
        simp
      refine ⟨_, by rw [intoCanonicalExtjson, if_pos hnorm], ?_⟩
      · show decodeNumberDoubleObj (.cons "$numberDouble"
          (.str (String.mk (f64ToChars (.finite neg ip (d :: ds)) ++
            (if fractZeroF (.finite neg ip (d :: ds)) then ['.', '0'] else [])))) .nil) =
            .ok (.double (.finite neg ip (d :: ds)))
        rw [hstr]
        obtain ⟨hne1, hne2, hne3⟩ := signedDigits_ne_literals neg ip ('.' :: (d :: ds).map digitCh)
        rw [decodeNumberDoubleObj_str hne1 hne2 hne3]
        have hdata : (String.mk ((if neg then ['-'] else []) ++ natDecChars ip ++
            '.' :: (d :: ds).map digitCh)).data =
            (if neg then ['-'] else []) ++ natDecChars ip ++ '.' :: (d :: ds).map digitCh := rfl
        rw [hdata, List.append_assoc]
        obtain ⟨c, rest, hcs, hdig⟩ := natDecChars_shape ip
        have hshape : natDecChars ip ++ '.' :: (d :: ds).map digitCh =
            c :: (rest ++ '.' :: (d :: ds).map digitCh) := by
          rw [hcs]
          simp
        rw [parseF64Chars_sign_mag neg _ c _ hshape hdig,
          parseF64Mag_frac neg ip (d :: ds) hall' hcanon']
    | nil =>
      by_cases hip : ip = 0
      · subst hip
        cases neg with
        | false => exact ⟨_, rfl, rfl⟩
        | true => exact ⟨_, rfl, rfl⟩
      · have hnorm : isNormalF (.finite neg ip []) = true := by
          rw [isNormalF]
          simp [hip]
        have hstr : f64ToChars (.finite neg ip []) ++
            (if fractZeroF (.finite neg ip []) then ['.', '0'] else []) =
            (if neg then ['-'] else []) ++ natDecChars ip ++ ['.', '0'] := by
          rw [f64ToChars, fractZeroF]
          simp
        refine ⟨_, by rw [intoCanonicalExtjson, if_pos hnorm], ?_⟩
        · show decodeNumberDoubleObj (.cons "$numberDouble"
            (.str (String.mk (f64ToChars (.finite neg ip []) ++
              (if fractZeroF (.finite neg ip []) then ['.', '0'] else [])))) .nil) =
              .ok (.double (.finite neg ip []))
          rw [hstr]
          obtain ⟨hne1, hne2, hne3⟩ := signedDigits_ne_literals neg ip ['.', '0']
          rw [decodeNumberDoubleObj_str hne1 hne2 hne3]
          have hdata : (String.mk ((if neg then ['-'] else []) ++ natDecChars ip ++
              ['.', '0'])).data =
              (if neg then ['-'] else []) ++ natDecChars ip ++ ['.', '0'] := rfl
          rw [hdata, List.append_assoc, parseF64Chars_forcedZero]

/-- Canonical round trip for `Int32`. -/
theorem rt_int32 (v : Int) (h : inI32Range v = true) :
    tryFromValue (.obj (.cons "$numberInt" (.str (String.mk (intDecChars v))) .nil)) =
      .ok (.int32 v) := by
  show decodeNumberIntObj (.cons "$numberInt" (.str (String.mk (intDecChars v))) .nil) =
    .ok (.int32 v)
  rw [decodeNumberIntObj]
  show (Except.ok (String.mk (intDecChars v))).bind _ = _
  rw [Except.bind, parseI32_intDecChars h]

/-- Canonical round trip for `Int64`. -/
theorem rt_int64 (v : Int) (h : inI64Range v = true) :
    tryFromValue (.obj (.cons "$numberLong" (.str (String.mk (intDecChars v))) .nil)) =
      .ok (.int64 v) := by
  show decodeNumberLongObj (.cons "$numberLong" (.str (String.mk (intDecChars v))) .nil) =
    .ok (.int64 v)
  rw [decodeNumberLongObj]
  show (Except.ok (String.mk (intDecChars v))).bind _ = _
  rw [Except.bind, parseI64_intDecChars h]

/-- Canonical round trip for `Timestamp`. -/
theorem rt_timestamp (t i : Nat) (ht : t < 2 ^ 32) (hi : i < 2 ^ 32) :
    tryFromValue (.obj (.cons "$timestamp"
        (.obj (.cons "t" (.num (.uint t)) (.cons "i" (.num (.uint i)) .nil))) .nil)) =
      .ok (.timestamp t i) := by
  show decodeTimestampObj (.cons "$timestamp"
    (.obj (.cons "t" (.num (.uint t)) (.cons "i" (.num (.uint i)) .nil))) .nil) =
    .ok (.timestamp t i)
  rw [decodeTimestampObj]
  have ht2 : t < 4294967296 := by omega
  have hi2 : i < 4294967296 := by omega
  simp [JObj.keysAmong, JObj.lookup, u32FieldValue, ht2, hi2]

theorem oidWithString_roundtrip (oid : List Nat) (hlen : oid.length = 12)
    (hb : ∀ b ∈ oid, b < 256) :
    oidWithString (String.mk (hexEncode oid)) = .ok oid := by
  rw [oidWithString]
  have hd : (String.mk (hexEncode oid)).data = hexEncode oid := rfl
  rw [hd, hexEncode_length, hlen, if_pos (by norm_num), hexDecode_hexEncode oid hb]

/-- Canonical round trip for `ObjectId`. -/
theorem rt_objectId (oid : List Nat) (hlen : oid.length = 12)
    (hb : ∀ b ∈ oid, b < 256) :
    tryFromValue (.obj (.cons "$oid" (.str (String.mk (hexEncode oid))) .nil)) =
      .ok (.objectId oid) := by
  show decodeOidObj (.cons "$oid" (.str (String.mk (hexEncode oid))) .nil) =
    .ok (.objectId oid)
  rw [decodeOidObj]
  show (Except.ok (String.mk (hexEncode oid))).bind _ = _
  rw [Except.bind, oidWithString_roundtrip oid hlen hb]
  rfl

/-- Canonical round trip for `Binary`. -/
theorem rt_binary (st : Nat) (bytes : List Nat) (hst : st < 256)
    (hb : ∀ b ∈ bytes, b < 256) :
    tryFromValue (.obj (.cons "$binary"
        (.obj (.cons "base64" (.str (String.mk (b64Encode bytes)))
          (.cons "subType" (.str (String.mk (hexEncode [st]))) .nil))) .nil)) =
      .ok (.binary st bytes) := by
  show decodeBinaryObj (.cons "$binary"
    (.obj (.cons "base64" (.str (String.mk (b64Encode bytes)))
      (.cons "subType" (.str (String.mk (hexEncode [st]))) .nil))) .nil) =
    .ok (.binary st bytes)
  rw [decodeBinaryObj]
  simp [JObj.keysAmong, JObj.lookup, b64Decode_b64Encode bytes hb,
    hexDecode_hexEncode [st] (by intro b hmem; simp at hmem; omega)]

/-- Canonical round trip for `DateTime` at millisecond precision. -/
theorem rt_dateTime (secs : Int) (nanos : Nat) (h1 : nanos < 1000000000)
    (h2 : nanos % 1000000 = 0) (h3 : inI64Range (timestampMillis secs nanos) = true) :
    tryFromValue (.obj (.cons "$date"
        (.obj (.cons "$numberLong"
          (.str (String.mk (intDecChars (timestampMillis secs nanos)))) .nil)) .nil)) =
      .ok (.dateTime secs nanos) := by
  have key : parseI64 (String.mk (intDecChars (timestampMillis secs nanos))) =
      some (timestampMillis secs nanos) := parseI64_intDecChars h3
  have hms : msToSecsMillis (timestampMillis secs nanos) =
      (secs, Int.ofNat (nanos / 1000000)) := by
    rw [timestampMillis]
    exact msToSecsMillis_recompose
      (by simp only [Int.ofNat_eq_coe]; omega)
      (by simp only [Int.ofNat_eq_coe]; omega)
  have hn : (Int.ofNat (nanos / 1000000)).toNat * 1000000 = nanos := by
    simp only [Int.ofNat_eq_coe, Int.toNat_natCast]
    omega
  show decodeDateObj (.cons "$date"
    (.obj (.cons "$numberLong"
      (.str (String.mk (intDecChars (timestampMillis secs nanos)))) .nil)) .nil) =
    .ok (.dateTime secs nanos)
  simp [decodeDateObj, singleStringField, JObj.keysAmong, JObj.lookup, Except.bind, key, hms, hn]
  omega

/-- Canonical round trip for `DbPointer`. -/
theorem rt_dbPointer (ns : String) (oid : List Nat) (hlen : oid.length = 12)
    (hb : ∀ b ∈ oid, b < 256) :
    tryFromValue (.obj (.cons "$dbPointer"
        (.obj (.cons "$ref" (.str ns)
          (.cons "$id" (.obj (.cons "$oid" (.str (String.mk (hexEncode oid))) .nil)) .nil)))
        .nil)) =
      .ok (.dbPointer ns oid) := by
  have key := oidWithString_roundtrip oid hlen hb
  show decodeDbPointerObj (.cons "$dbPointer"
    (.obj (.cons "$ref" (.str ns)
      (.cons "$id" (.obj (.cons "$oid" (.str (String.mk (hexEncode oid))) .nil)) .nil)))
    .nil) =
    .ok (.dbPointer ns oid)
  simp [decodeDbPointerObj, singleStringField, JObj.keysAmong, JObj.lookup, Except.bind, Except.map, key]

/-- Canonical round trip for a regex with already-sorted options. -/
theorem rt_regex (p opts : String) (h : isSortedCh opts.data = true) :
    ∃ j, intoCanonicalExtjson (.regularExpression p opts) = .ok j ∧
      tryFromValue j = .ok (.regularExpression p opts) := by
  have hs := sortChars_of_sorted opts h
  refine ⟨_, rfl, ?_⟩
  have hdec : tryFromValue (.obj (.cons "$regularExpression"
      (.obj (.cons "pattern" (.str p)
        (.cons "options" (.str (sortChars opts)) .nil))) .nil)) =
      .ok (.regularExpression p (sortChars (sortChars opts))) := rfl
  rw [hdec, hs, hs]

mutual

/-- The mutual core of claim C1: on the `goodBson` domain the canonical
encoding decodes back to the value itself. -/
theorem roundtripB : (v : Bson) → goodBson v = true →
    ∃ j, intoCanonicalExtjson v = .ok j ∧ tryFromValue j = .ok v
  | .double f, h => rt_double f h
  | .string v, _ => ⟨_, rfl, rfl⟩
  | .boolean b, _ => ⟨_, rfl, rfl⟩
  | .null, _ => ⟨_, rfl, rfl⟩
  | .javaScriptCode c, _ => ⟨_, rfl, rfl⟩
  | .symbol v, _ => ⟨_, rfl, rfl⟩
  | .undefined, _ => ⟨_, rfl, rfl⟩
  | .maxKey, _ => ⟨_, rfl, rfl⟩
  | .minKey, _ => ⟨_, rfl, rfl⟩
  | .decimal128 x, h => absurd h Bool.false_ne_true
  | .regularExpression p opts, h => rt_regex p opts h
  | .int32 v, h => ⟨_, rfl, rt_int32 v h⟩
  | .int64 v, h => ⟨_, rfl, rt_int64 v h⟩
  | .timestamp t i, h => by
    have hh := Bool.and_eq_true_iff.mp h
    exact ⟨_, rfl, rt_timestamp t i (of_decide_eq_true hh.1) (of_decide_eq_true hh.2)⟩
  | .binary st bytes, h => by
    have hh := Bool.and_eq_true_iff.mp h
    refine ⟨_, rfl, rt_binary st bytes (of_decide_eq_true hh.1) ?_⟩
    intro b hbm
    exact of_decide_eq_true (List.all_eq_true.mp hh.2 b hbm)
  | .objectId oid, h => by
    have hh := Bool.and_eq_true_iff.mp h
    refine ⟨_, rfl, rt_objectId oid (of_decide_eq_true hh.1) ?_⟩
    intro b hbm
    exact of_decide_eq_true (List.all_eq_true.mp hh.2 b hbm)
  | .dateTime secs nanos, h => by
    have hh := Bool.and_eq_true_iff.mp h
    have hh2 := Bool.and_eq_true_iff.mp hh.1
    exact ⟨_, rfl,
      rt_dateTime secs nanos (of_decide_eq_true hh2.1) (of_decide_eq_true hh2.2) hh.2⟩
  | .dbPointer ns oid, h => by
    have hh := Bool.and_eq_true_iff.mp h
    refine ⟨_, rfl, rt_dbPointer ns oid (of_decide_eq_true hh.1) ?_⟩
    intro b hbm
    exact of_decide_eq_true (List.all_eq_true.mp hh.2 b hbm)
  | .array a, h => by
    obtain ⟨ja, hja, hdec⟩ := roundtripA a h
    refine ⟨.arr ja, ?_, ?_⟩
    · rw [intoCanonicalExtjson, hja]
      rfl
    · show (arrFromJson ja).map Bson.array = .ok (.array a)
      rw [hdec]
      rfl
  | .document d, h => by
    obtain ⟨jd, hjd, hdec, hkeys⟩ := roundtripD d h
    refine ⟨.obj jd, ?_, ?_⟩
    · rw [intoCanonicalExtjson, hjd]
      rfl
    · have hck : ∀ k, wrapperKeys.contains k = true → JObj.containsKey jd k = false := by
        intro k hk
        rw [containsKey_eq_keys_contains, hkeys]
        exact goodDoc_no_wrapper_key d h k hk
      simp [tryFromValue, hck "$oid" (by decide), hck "$symbol" (by decide),
        hck "$regularExpression" (by decide), hck "$numberInt" (by decide),
        hck "$numberLong" (by decide), hck "$numberDouble" (by decide),
        hck "$binary" (by decide), hck "$code" (by decide),
        hck "$timestamp" (by decide), hck "$date" (by decide),
        hck "$minKey" (by decide), hck "$maxKey" (by decide),
        hck "$dbPointer" (by decide), hck "$numberDecimal" (by decide),
        hck "$undefined" (by decide), hdec]
      rfl
  | .javaScriptCodeWithScope c scope, h => by
    obtain ⟨jd, hjd, hdec, _⟩ := roundtripD scope h
    refine ⟨.obj (.cons "$code" (.str c) (.cons "$scope" (.obj jd) .nil)), ?_, ?_⟩
    · rw [intoCanonicalExtjson, hjd]
      rfl
    · show ((docFromExtJson jd).map fun dd => Bson.javaScriptCodeWithScope c dd) =
        .ok (.javaScriptCodeWithScope c scope)
      rw [hdec]
      rfl

theorem roundtripA : (a : BArr) → goodArr a = true →
    ∃ ja, canonicalArr a = .ok ja ∧ arrFromJson ja = .ok a
  | .nil, _ => ⟨_, rfl, rfl⟩
  | .cons hd tl, h => by
    have hh := Bool.and_eq_true_iff.mp h
    obtain ⟨j, hj, hdj⟩ := roundtripB hd hh.1
    obtain ⟨ja, hja, hdja⟩ := roundtripA tl hh.2
    refine ⟨.cons j ja, ?_, ?_⟩
    · rw [canonicalArr, hj, hja]
    · rw [arrFromJson, hdj, hdja]

theorem roundtripD : (d : BDoc) → goodDoc d = true →
    ∃ jd, canonicalObj d = .ok jd ∧ docFromExtJson jd = .ok d ∧
      JObj.keys jd = BDoc.keys d
  | .nil, _ => ⟨_, rfl, rfl, rfl⟩
  | .cons k v tl, h => by
    rw [goodDoc] at h
    simp only [Bool.and_eq_true_iff] at h
    obtain ⟨⟨⟨_, _⟩, hv⟩, htl⟩ := h
    obtain ⟨j, hj, hdj⟩ := roundtripB v hv
    obtain ⟨jd, hjd, hdjd, hkeys⟩ := roundtripD tl htl
    refine ⟨.cons k j jd, ?_, ?_, ?_⟩
    · rw [canonicalObj, hj, hjd]
    · rw [docFromExtJson, hdj, hdjd]
    · rw [JObj.keys, BDoc.keys, hkeys]

end

/-- Claim C1 (counterexample): the document `{"$numberInt": "5"}` (no
Decimal128, no regex, no datetime) canonically encodes to the JSON object
`{"$numberInt": "5"}`, which the decoder dispatches as an `Int32` wrapper:
the round trip returns `Ok(Bson::Int32(5))`, not the original document. -/
theorem c1_wrapper_key_document :
    intoCanonicalExtjson (.document (.cons "$numberInt" (.string "5") .nil)) =
      .ok (.obj (.cons "$numberInt" (.str "5") .nil)) ∧
    tryFromValue (.obj (.cons "$numberInt" (.str "5") .nil)) = .ok (.int32 5) ∧
    Bson.int32 5 ≠ Bson.document (.cons "$numberInt" (.string "5") .nil) :=
  ⟨rfl, rfl, fun h => Bson.noConfusion h⟩

/-- Claim C1 (amended): for every Bson value in the round-trip domain
`goodBson` — no `Decimal128`, regex options already sorted, datetimes at
millisecond precision, and additionally no NaN double and no document
(anywhere in the value) with a duplicate key or a key from the fixed
wrapper-dispatch list — decoding the canonical extended-JSON encoding of
the value yields it back exactly. -/
theorem c1_canonical_roundtrip (v : Bson) (h : goodBson v = true) :
    ∃ j, intoCanonicalExtjson v = .ok j ∧ tryFromValue j = .ok v :=
  roundtripB v h

/-- Witness for C1's amended theorem at `v = {"a": Int32 5}`. -/
theorem c1_canonical_roundtrip_witness :
    goodBson (.document (.cons "a" (.int32 5) .nil)) = true ∧
    ∃ j, intoCanonicalExtjson (.document (.cons "a" (.int32 5) .nil)) = .ok j ∧
      tryFromValue j = .ok (.document (.cons "a" (.int32 5) .nil)) :=
  ⟨rfl, c1_canonical_roundtrip _ rfl⟩
